import Mathlib

/-!
Verification development for the goconcurrencylint static analyzer
(package `pkg/analyzer` with its `mutex` and `waitgroup` sub-analyzers and
the shared error collector in `checker/report`).

The Go syntax trees that the analyzers walk are embedded as the inductive
type `Stmt` below.  Each constructor corresponds to one of the `go/ast`
statement shapes that the analyzer code inspects; statements whose inner
structure the analyzers never look at (plain assignments, arbitrary
expressions, ...) are collapsed into `Stmt.otherStmt`.  Expressions are kept
only as deep as the analyzers match on them: a method-call expression
`recv.meth(args)` becomes `Call`, the receiver is either a plain identifier
or a non-identifier (`Recv`), and call arguments keep just the shapes
`isWaitGroupArgument` and `GetAddValue` distinguish.  Source positions
(`token.Pos`) are natural numbers; `token.NoPos = 0`.

The comment filter (`commentfilter.CommentFilter`) is an external
collaborator of the core; its `IsInComment : Pos → Bool` predicate is taken
as a parameter of each analyzer, with `ShouldSkipCall`/`ShouldSkipStatement`
derived from it exactly as in the Go source (both just resolve the node's
position).
-/

/-- Source position, mirroring `token.Pos` (an integer offset). -/
abbrev Pos := Nat

/-- The zero position `token.NoPos`. -/
def noPos : Pos := 0

/-- A diagnostic accumulated by `report.ErrorCollector.AddError`. -/
structure ErrorReport where
  pos : Pos
  message : String
deriving DecidableEq, Repr

/-- Receiver expression of a selector: either a plain identifier or any
other (compound) expression, which is all `common.GetVarName` ever
distinguishes. -/
inductive Recv where
  | ident (name : String)
  | nonIdent
deriving DecidableEq, Repr

/-- Argument of a call, kept as deep as `isWaitGroupArgument` and
`GetAddValue` inspect arguments: an integer literal, `&x`, a plain
identifier, a selector `x.sel`, a nested call `x.sel(...)` (its own
arguments are not modelled), or anything else. -/
inductive Arg where
  | intLit (v : Nat)
  | addrOfIdent (name : String)
  | identArg (name : String)
  | selArg (x sel : String)
  | callSelArg (x sel : String) (pos : Pos)
  | otherArg
deriving DecidableEq, Repr

/-- A call expression whose `Fun` is a selector: `recv.meth(args)`,
positioned at `pos` (`call.Pos()`). -/
structure Call where
  recv : Recv
  meth : String
  args : List Arg
  pos : Pos
deriving DecidableEq, Repr

/-- The init clause of an `if` statement, kept only as deep as
`isRecoverCheck` matches it: either absent, an assignment whose single
right-hand side is a call of a plain identifier (`x := f(...)`), or any
other statement. -/
inductive IfInit where
  | noInit
  | assignOneCall (fname : String)
  | otherInit
deriving DecidableEq, Repr

/-- Token of a branch statement (`break`, `continue`, `goto`,
`fallthrough`), distinguished by `isTerminatingStatement`. -/
inductive BranchTok where
  | brk
  | cont
  | gotoTok
  | fallth
deriving DecidableEq, Repr

mutual

/-- Statements of the embedded Go syntax tree.  `switch`, `type-switch` and
`select` carry their clause list as `(isDefault, body)` pairs: for a
`CaseClause`, `isDefault` models `len(cc.List) == 0`; for a `CommClause`
it models `cc.Comm == nil`.  Conditions of `if`/`for` and expressions not
listed here are assumed to contain no references to tracked primitives. -/
inductive Stmt where
  /-- `ExprStmt` wrapping `recv.meth(args)`. -/
  | exprCall (c : Call)
  /-- `ExprStmt` wrapping `f(args)` for a plain identifier `f` (e.g. `panic`). -/
  | exprIdentCall (fname : String) (args : List Arg) (pos : Pos)
  /-- `ExprStmt` wrapping a channel receive `<-ch`. -/
  | exprRecv (ch : String) (pos : Pos)
  /-- Any other expression statement. -/
  | exprOther (pos : Pos)
  /-- `defer recv.meth(args)`; `dpos` is the statement position. -/
  | deferSel (c : Call) (dpos : Pos)
  /-- `defer func(){ body }(args)`; `cpos` is the deferred call position. -/
  | deferFunLit (body : List Stmt) (args : List Arg) (dpos cpos : Pos)
  /-- `defer f(args)` for a plain identifier `f`. -/
  | deferIdentCall (fname : String) (args : List Arg) (dpos cpos : Pos)
  /-- `if` statement with its else clause (`ast.IfStmt.Else`). -/
  | ifStmt (ini : IfInit) (body : List Stmt) (els : ElseClause) (pos : Pos)
  /-- `go func(){ body }(args)`. -/
  | goFunLit (body : List Stmt) (args : List Arg) (pos : Pos)
  /-- `go f(args)` for a plain identifier `f`. -/
  | goIdentCall (fname : String) (args : List Arg) (pos : Pos)
  | forStmt (body : List Stmt) (pos : Pos)
  | rangeStmt (body : List Stmt) (pos : Pos)
  | switchStmt (cases : List (Bool × List Stmt)) (pos : Pos)
  | typeSwitchStmt (cases : List (Bool × List Stmt)) (pos : Pos)
  | selectStmt (cases : List (Bool × List Stmt)) (pos : Pos)
  | blockStmt (body : List Stmt) (pos : Pos)
  /-- Channel send `ch <- v`. -/
  | sendStmt (ch : String) (pos : Pos)
  | returnStmt (pos : Pos)
  | branchStmt (tok : BranchTok) (pos : Pos)
  /-- Any other statement (declarations, assignments, ...), assumed to
  contain no references to tracked primitives. -/
  | otherStmt (pos : Pos)

/-- The `Else` field of an `ast.IfStmt`: absent, a block, an `else if`
(held as the nested statement, expected to be an `ifStmt`), or — since in
the Go type `Else` is an arbitrary `ast.Stmt` — some other statement. -/
inductive ElseClause where
  | noElse
  | elseBlock (body : List Stmt) (pos : Pos)
  | elseIf (s : Stmt)
  | elseOther (pos : Pos)

end

/-- Position of a statement (`stmt.Pos()`). -/
def Stmt.pos : Stmt → Pos
  | .exprCall c => c.pos
  | .exprIdentCall _ _ p => p
  | .exprRecv _ p => p
  | .exprOther p => p
  | .deferSel _ dp => dp
  | .deferFunLit _ _ dp _ => dp
  | .deferIdentCall _ _ dp _ => dp
  | .ifStmt _ _ _ p => p
  | .goFunLit _ _ p => p
  | .goIdentCall _ _ p => p
  | .forStmt _ p => p
  | .rangeStmt _ p => p
  | .switchStmt _ p => p
  | .typeSwitchStmt _ p => p
  | .selectStmt _ p => p
  | .blockStmt _ p => p
  | .sendStmt _ p => p
  | .returnStmt p => p
  | .branchStmt _ p => p
  | .otherStmt p => p

/-- The single-quote character, used to build diagnostic messages exactly as
the Go source concatenates them around variable names. -/
def quoteChar : String := "\x27"

/-- Embeds `common.GetVarName`: the identifier name if the expression is an
identifier, otherwise the string quoted question mark. -/
def getVarName : Recv → String
  | .ident name => name
  | .nonIdent => "?"

/-- Embeds `common.GetAddValue`: the value of a literal-integer first
argument, defaulting to 1 when there is no argument or it is not a literal
integer. -/
def getAddValue (c : Call) : Nat :=
  match c.args with
  | [] => 1
  | a :: _ =>
    match a with
    | .intLit v => v
    | _ => 1

/-- The comment filter collaborator: `IsInComment` as a predicate on
positions. -/
abbrev CommentFilter := Pos → Bool

/-- A filter for a file with no comments. -/
def noComments : CommentFilter := fun _ => false

/-- Embeds `CommentFilter.ShouldSkipStatement` (resolves the statement's
position). -/
def shouldSkipStatement (cf : CommentFilter) (s : Stmt) : Bool :=
  cf s.pos

/-- Embeds `CommentFilter.ShouldSkipCall` applied to the `Call` of a defer
statement: resolves the deferred call's position. -/
def deferCallPos : Stmt → Option Pos
  | .deferSel c _ => some c.pos
  | .deferFunLit _ _ _ cp => some cp
  | .deferIdentCall _ _ _ cp => some cp
  | _ => none

/-!
Preorder traversal, modelling `ast.Inspect`.  `stmtPreP p` lists a
statement node and, recursively, all statement nodes below it in syntactic
order, pruning every subtree whose root satisfies `p` (the model of an
`Inspect` callback returning `false` on that node).  `stmtsPre` is the
unpruned traversal of a statement list.
-/

mutual

def stmtPreP (p : Stmt → Bool) (s : Stmt) : List Stmt :=
  if p s then [] else
    s :: (match s with
      | .deferFunLit body _ _ _ => stmtsPreP p body
      | .ifStmt _ body els _ => stmtsPreP p body ++ elsePreP p els
      | .goFunLit body _ _ => stmtsPreP p body
      | .forStmt body _ => stmtsPreP p body
      | .rangeStmt body _ => stmtsPreP p body
      | .switchStmt cases _ => casesPreP p cases
      | .typeSwitchStmt cases _ => casesPreP p cases
      | .selectStmt cases _ => casesPreP p cases
      | .blockStmt body _ => stmtsPreP p body
      | _ => [])

def stmtsPreP (p : Stmt → Bool) : List Stmt → List Stmt
  | [] => []
  | s :: rest => stmtPreP p s ++ stmtsPreP p rest

def elsePreP (p : Stmt → Bool) : ElseClause → List Stmt
  | .noElse => []
  | .elseBlock body _ => stmtsPreP p body
  | .elseIf s => stmtPreP p s
  | .elseOther _ => []

def casesPreP (p : Stmt → Bool) : List (Bool × List Stmt) → List Stmt
  | [] => []
  | (_, body) :: rest => stmtsPreP p body ++ casesPreP p rest

end

/-- Unpruned preorder traversal of a statement list. -/
def stmtsPre (l : List Stmt) : List Stmt := stmtsPreP (fun _ => false) l

/-- Selector call carried by an argument expression (a nested call
`x.sel(...)` used as an argument). -/
def argCall : Arg → List Call
  | .callSelArg x sel p => [⟨.ident x, sel, [], p⟩]
  | _ => []

/-- Selector calls attached directly to one statement node (not the ones in
nested statement bodies, which appear as their own preorder nodes). -/
def shallowCalls : Stmt → List Call
  | .exprCall c => c :: c.args.flatMap argCall
  | .deferSel c _ => c :: c.args.flatMap argCall
  | .exprIdentCall _ args _ => args.flatMap argCall
  | .deferIdentCall _ args _ _ => args.flatMap argCall
  | .goIdentCall _ args _ => args.flatMap argCall
  | .deferFunLit _ args _ _ => args.flatMap argCall
  | .goFunLit _ args _ => args.flatMap argCall
  | _ => []

/-- All selector-call expressions in a statement list, in traversal order:
the model of `ast.Inspect` visiting every `CallExpr` whose `Fun` is a
`SelectorExpr`. -/
def allCalls (l : List Stmt) : List Call :=
  (stmtsPre l).flatMap shallowCalls

/-- All selector-call expressions, pruning subtrees matched by `p`. -/
def allCallsP (p : Stmt → Bool) (l : List Stmt) : List Call :=
  (stmtsPreP p l).flatMap shallowCalls

/-- Argument lists of every call expression in a statement list (selector
calls, plain-identifier calls, deferred calls, `go` calls): what
`isWaitGroupPassedToOtherFunctions` iterates over. -/
def shallowCallArgs : Stmt → List (List Arg)
  | .exprCall c => [c.args]
  | .exprIdentCall _ args _ => [args]
  | .deferSel c _ => [c.args]
  | .deferFunLit _ args _ _ => [args]
  | .deferIdentCall _ args _ _ => [args]
  | .goFunLit _ args _ => [args]
  | .goIdentCall _ args _ => [args]
  | _ => []

/-- `go func(){...}()` statement (body, statement position) at one node. -/
def goFunLitOf : Stmt → List (List Stmt × Pos)
  | .goFunLit body _ p => [(body, p)]
  | _ => []

/-- All `go` statements with function-literal callees in a statement list,
in traversal order, including ones nested in other constructs and
goroutines. -/
def allGoFunLits (l : List Stmt) : List (List Stmt × Pos) :=
  (stmtsPre l).flatMap goFunLitOf

/-- All `for` statements (body, position) in a statement list. -/
def allForStmts (l : List Stmt) : List (List Stmt × Pos) :=
  (stmtsPre l).flatMap (fun s => match s with
    | .forStmt body p => [(body, p)]
    | _ => [])

/-- All `defer` statements in a statement list, in traversal order. -/
def allDeferStmts (l : List Stmt) : List Stmt :=
  (stmtsPre l).filter (fun s => match s with
    | .deferSel _ _ => true
    | .deferFunLit _ _ _ _ => true
    | .deferIdentCall _ _ _ _ => true
    | _ => false)

/-!
Embedding of the lock-balance analyzer (`pkg/analyzer/mutex`).  The Go
analyzer threads a `map[string]*Stats` through recursive calls and appends
diagnostics to a shared `ErrorCollector`; here the map becomes a total
function `StatsMap` (absent keys read as the zero `Stats`, matching the
observable behaviour of `initializeStats`, which fills the map with zero
entries for every tracked name) and the collector plus the
`deferErrorCollector` flags become the explicitly threaded state
`Mutex.AState`.  The field `ma.stats` of the Go analyzer is written once by
`initializeStats` and never reassigned afterwards, so it is modelled by the
constant `initializeStats`.
-/

namespace Mutex

/-- Embeds `mutex.Stats`: per-variable lock state within a block. -/
structure Stats where
  lock : Nat
  rlock : Nat
  lockPos : List Pos
  rlockPos : List Pos
deriving DecidableEq, Repr

/-- The zero `Stats` value (`&Stats{}`). -/
def Stats.empty : Stats := ⟨0, 0, [], []⟩

/-- The per-scope `map[string]*Stats`, as a total function. -/
abbrev StatsMap := String → Stats

/-- Pointwise update of one entry (`stats[varName] = ...`). -/
def setStats (m : StatsMap) (name : String) (s : Stats) : StatsMap :=
  fun n => if n = name then s else m n

/-- Embeds the analyzer configuration: the two tracked-name sets (as lists,
standing for `map[string]bool`) with the comment filter. -/
structure Analyzer where
  mutexNames : List String
  rwMutexNames : List String
  inComment : CommentFilter

/-- Mutable analyzer state: the shared error collector plus the
`deferErrorCollector` maps `badDeferUnlock` / `badDeferRUnlock`. -/
structure AState where
  errors : List ErrorReport
  badDeferUnlock : String → Bool
  badDeferRUnlock : String → Bool

/-- State at `NewAnalyzer`: no errors, no bad-defer marks. -/
def AState.initial : AState := ⟨[], fun _ => false, fun _ => false⟩

/-- Embeds `ErrorCollector.AddError` (append to the error slice). -/
def addError (st : AState) (pos : Pos) (msg : String) : AState :=
  { st with errors := st.errors ++ [⟨pos, msg⟩] }

/-- Marks `deferErrors.badDeferUnlock[name] = true`. -/
def markBadDeferUnlock (st : AState) (name : String) : AState :=
  { st with badDeferUnlock := fun n => if n = name then true else st.badDeferUnlock n }

/-- Marks `deferErrors.badDeferRUnlock[name] = true`. -/
def markBadDeferRUnlock (st : AState) (name : String) : AState :=
  { st with badDeferRUnlock := fun n => if n = name then true else st.badDeferRUnlock n }

/-- Embeds `initializeStats`: a fresh map with the zero `Stats` for every
tracked name. -/
def initializeStats (_ : Analyzer) : StatsMap := fun _ => Stats.empty

/-- Embeds `copyStats`: a deep copy of the map.  Under value semantics a
deep copy is the map itself. -/
def copyStats (m : StatsMap) : StatsMap := m

/-- Embeds `mergeStats`: counts are summed and position lists concatenated,
entry by entry. -/
def mergeStats (parent child : StatsMap) : StatsMap :=
  fun n =>
    { lock := (parent n).lock + (child n).lock
      rlock := (parent n).rlock + (child n).rlock
      lockPos := (parent n).lockPos ++ (child n).lockPos
      rlockPos := (parent n).rlockPos ++ (child n).rlockPos }

/-- Embeds `removeFirstLockPos` (`stats.lockPos = stats.lockPos[1:]` when
non-empty). -/
def removeFirstLockPos (s : Stats) : Stats :=
  match s.lockPos with
  | [] => s
  | _ :: rest => { s with lockPos := rest }

/-- Embeds `removeFirstRLockPos`. -/
def removeFirstRLockPos (s : Stats) : Stats :=
  match s.rlockPos with
  | [] => s
  | _ :: rest => { s with rlockPos := rest }

/-- Message `<type> 'v' is locked but not unlocked`. -/
def lockedNotUnlockedMsg (mutexType v : String) : String :=
  mutexType ++ " " ++ quoteChar ++ v ++ quoteChar ++ " is locked but not unlocked"

/-- Message `<type> 'v' is unlocked but not locked`. -/
def unlockedNotLockedMsg (mutexType v : String) : String :=
  mutexType ++ " " ++ quoteChar ++ v ++ quoteChar ++ " is unlocked but not locked"

/-- Message `rwmutex 'v' is rlocked but not runlocked`. -/
def rlockedNotRunlockedMsg (v : String) : String :=
  "rwmutex " ++ quoteChar ++ v ++ quoteChar ++ " is rlocked but not runlocked"

/-- Message `rwmutex 'v' is runlocked but not rlocked`. -/
def runlockedNotRlockedMsg (v : String) : String :=
  "rwmutex " ++ quoteChar ++ v ++ quoteChar ++ " is runlocked but not rlocked"

/-- Message `<type> 'v' has defer unlock but no corresponding lock`. -/
def deferUnlockMsg (mutexType v : String) : String :=
  mutexType ++ " " ++ quoteChar ++ v ++ quoteChar ++ " has defer unlock but no corresponding lock"

/-- Message `rwmutex 'v' has defer runlock but no corresponding rlock`. -/
def deferRunlockMsg (v : String) : String :=
  "rwmutex " ++ quoteChar ++ v ++ quoteChar ++ " has defer runlock but no corresponding rlock"

/-- Embeds `handleMutexCall`: `Lock` records an acquisition, `Unlock`
either reports unlock-without-lock or consumes the oldest acquisition. -/
def handleMutexCall (varName meth : String) (pos : Pos) (stats : StatsMap)
    (st : AState) : StatsMap × AState :=
  match meth with
  | "Lock" =>
    let s := stats varName
    (setStats stats varName { s with lock := s.lock + 1, lockPos := s.lockPos ++ [pos] }, st)
  | "Unlock" =>
    if (stats varName).lock = 0 then
      (stats, addError st pos (unlockedNotLockedMsg "mutex" varName))
    else
      let s := stats varName
      (setStats stats varName (removeFirstLockPos { s with lock := s.lock - 1 }), st)
  | _ => (stats, st)

/-- Embeds `handleRWMutexCall`. -/
def handleRWMutexCall (varName meth : String) (pos : Pos) (stats : StatsMap)
    (st : AState) : StatsMap × AState :=
  match meth with
  | "Lock" =>
    let s := stats varName
    (setStats stats varName { s with lock := s.lock + 1, lockPos := s.lockPos ++ [pos] }, st)
  | "Unlock" =>
    if (stats varName).lock = 0 then
      (stats, addError st pos (unlockedNotLockedMsg "rwmutex" varName))
    else
      let s := stats varName
      (setStats stats varName (removeFirstLockPos { s with lock := s.lock - 1 }), st)
  | "RLock" =>
    let s := stats varName
    (setStats stats varName { s with rlock := s.rlock + 1, rlockPos := s.rlockPos ++ [pos] }, st)
  | "RUnlock" =>
    if (stats varName).rlock = 0 then
      (stats, addError st pos (runlockedNotRlockedMsg varName))
    else
      let s := stats varName
      (setStats stats varName (removeFirstRLockPos { s with rlock := s.rlock - 1 }), st)
  | _ => (stats, st)

/-- Embeds `handleDeferUnlock`: with no outstanding acquisition it reports
defer-unlock-without-lock and marks the variable in `badDeferUnlock`;
otherwise it consumes the oldest acquisition. -/
def handleDeferUnlock (varName : String) (pos : Pos) (stats : StatsMap)
    (st : AState) (isRWMutex : Bool) : StatsMap × AState :=
  if (stats varName).lock = 0 then
    let mutexType := if isRWMutex then "rwmutex" else "mutex"
    (stats, markBadDeferUnlock (addError st pos (deferUnlockMsg mutexType varName)) varName)
  else
    let s := stats varName
    (setStats stats varName (removeFirstLockPos { s with lock := s.lock - 1 }), st)

/-- Embeds `handleDeferRUnlock`. -/
def handleDeferRUnlock (varName : String) (pos : Pos) (stats : StatsMap)
    (st : AState) : StatsMap × AState :=
  if (stats varName).rlock = 0 then
    (stats, markBadDeferRUnlock (addError st pos (deferRunlockMsg varName)) varName)
  else
    let s := stats varName
    (setStats stats varName (removeFirstRLockPos { s with rlock := s.rlock - 1 }), st)

/-- Embeds `containsUnlock`: the deferred closure body contains a
(non-commented) call `name.Unlock()` anywhere. -/
def containsUnlock (cf : CommentFilter) (body : List Stmt) (name : String) : Bool :=
  (allCalls body).any (fun c =>
    if cf c.pos then false
    else c.meth == "Unlock" && getVarName c.recv == name)

/-- Embeds `containsRUnlock`. -/
def containsRUnlock (cf : CommentFilter) (body : List Stmt) (name : String) : Bool :=
  (allCalls body).any (fun c =>
    if cf c.pos then false
    else c.meth == "RUnlock" && getVarName c.recv == name)

/-- Embeds `handleDeferCall` (direct `defer recv.meth()`). -/
def handleDeferCall (ma : Analyzer) (c : Call) (pos : Pos) (stats : StatsMap)
    (st : AState) : StatsMap × AState :=
  let varName := getVarName c.recv
  let r1 :=
    if ma.mutexNames.contains varName && c.meth == "Unlock" then
      handleDeferUnlock varName pos stats st false
    else (stats, st)
  if ma.rwMutexNames.contains varName then
    match c.meth with
    | "Unlock" => handleDeferUnlock varName pos r1.1 r1.2 true
    | "RUnlock" => handleDeferRUnlock varName pos r1.1 r1.2
    | _ => r1
  else r1

/-- Embeds `handleDeferFunctionLiteral`: scan the deferred closure body for
unlock calls of each tracked name. -/
def handleDeferFunctionLiteral (ma : Analyzer) (fbody : List Stmt) (pos : Pos)
    (stats : StatsMap) (st : AState) : StatsMap × AState :=
  let r1 := ma.mutexNames.foldl
    (fun (acc : StatsMap × AState) mutexName =>
      if containsUnlock ma.inComment fbody mutexName then
        handleDeferUnlock mutexName pos acc.1 acc.2 false
      else acc)
    (stats, st)
  ma.rwMutexNames.foldl
    (fun (acc : StatsMap × AState) rwMutexName =>
      let acc1 :=
        if containsUnlock ma.inComment fbody rwMutexName then
          handleDeferUnlock rwMutexName pos acc.1 acc.2 true
        else acc
      if containsRUnlock ma.inComment fbody rwMutexName then
        handleDeferRUnlock rwMutexName pos acc1.1 acc1.2
      else acc1)
    r1

/-- Embeds `analyzeDeferStatement`. -/
def analyzeDeferStatement (ma : Analyzer) (s : Stmt) (stats : StatsMap)
    (st : AState) : StatsMap × AState :=
  match s with
  | .deferSel c dpos =>
    if ma.inComment c.pos then (stats, st)
    else handleDeferCall ma c dpos stats st
  | .deferFunLit body _ dpos cpos =>
    if ma.inComment cpos then (stats, st)
    else handleDeferFunctionLiteral ma body dpos stats st
  | _ => (stats, st)

/-- Embeds `analyzeExpressionStatement` (Lock/Unlock calls).  Expression
statements that are not selector calls fall through every type assertion in
the Go source and leave everything unchanged. -/
def analyzeExpressionStatement (ma : Analyzer) (s : Stmt) (stats : StatsMap)
    (st : AState) : StatsMap × AState :=
  match s with
  | .exprCall c =>
    if ma.inComment c.pos then (stats, st)
    else
      let varName := getVarName c.recv
      let r1 :=
        if ma.mutexNames.contains varName then
          handleMutexCall varName c.meth c.pos stats st
        else (stats, st)
      if ma.rwMutexNames.contains varName then
        handleRWMutexCall varName c.meth c.pos r1.1 r1.2
      else r1
  | _ => (stats, st)

/-- Embeds `reportUnmatchedMutexLocksWithContext`: one diagnostic per
recorded (r)lock position, with an optional branch-context suffix. -/
def reportUnmatchedMutexLocksWithContext (mutexName : String) (stats : Stats)
    (isRWMutex : Bool) (branchType : String) (st : AState) : AState :=
  let mutexType := if isRWMutex then "rwmutex" else "mutex"
  let lockMessage :=
    if branchType = "" then lockedNotUnlockedMsg mutexType mutexName
    else lockedNotUnlockedMsg mutexType mutexName ++ " in " ++ branchType
  let rlockMessage :=
    if branchType = "" then rlockedNotRunlockedMsg mutexName
    else rlockedNotRunlockedMsg mutexName ++ " in " ++ branchType
  let st1 := stats.lockPos.foldl (fun acc pos => addError acc pos lockMessage) st
  if isRWMutex then
    stats.rlockPos.foldl (fun acc pos => addError acc pos rlockMessage) st1
  else st1

/-- Embeds `reportUnmatchedLocksInBranch`. -/
def reportUnmatchedLocksInBranch (ma : Analyzer) (stats : StatsMap)
    (branchType : String) (st : AState) : AState :=
  let st1 := ma.mutexNames.foldl
    (fun acc name => reportUnmatchedMutexLocksWithContext name (stats name) false branchType acc)
    st
  ma.rwMutexNames.foldl
    (fun acc name => reportUnmatchedMutexLocksWithContext name (stats name) true branchType acc)
    st1

/-- Embeds `reportUnmatchedMutexLocks` (function-level, empty context). -/
def reportUnmatchedMutexLocks (mutexName : String) (stats : Stats)
    (isRWMutex : Bool) (st : AState) : AState :=
  reportUnmatchedMutexLocksWithContext mutexName stats isRWMutex "" st

/-- Embeds `reportUnmatchedLocks`: function-end reporting, skipping every
variable marked in the defer-error collector. -/
def reportUnmatchedLocks (ma : Analyzer) (stats : StatsMap) (st : AState) : AState :=
  let st1 := ma.mutexNames.foldl
    (fun acc name =>
      if st.badDeferUnlock name then acc
      else reportUnmatchedMutexLocks name (stats name) false acc)
    st
  ma.rwMutexNames.foldl
    (fun acc name =>
      if st.badDeferUnlock name || st.badDeferRUnlock name then acc
      else reportUnmatchedMutexLocks name (stats name) true acc)
    st1

mutual

/-- Embeds `analyzeStatement` together with the per-construct handlers it
dispatches to (`analyzeIfStatement`, `analyzeElseBranch`,
`analyzeGoStatement`, `analyzeForStatement`, `analyzeRangeStatement`,
`analyzeSwitchStatement`, `analyzeTypeSwitchStatement`,
`analyzeSelectStatement`), which are inlined into the corresponding match
arms so that the recursion is structural; each arm is annotated with the Go
helper it embeds.  Statement kinds with no case in the Go type switch leave
both the stats and the collector unchanged.  Calls of the form
`analyzeBlock`/`analyzeStatements` in the Go source appear here as
`runStatements` from a fresh copy `copyStats (initializeStats ma)` of the
analyzer-level map, which is exactly what those two functions do. -/
def analyzeStatement (ma : Analyzer) (s : Stmt) (stats : StatsMap)
    (st : AState) : StatsMap × AState :=
  match s with
  | .exprCall c => analyzeExpressionStatement ma (.exprCall c) stats st
  | .exprIdentCall f args p => analyzeExpressionStatement ma (.exprIdentCall f args p) stats st
  | .exprRecv ch p => analyzeExpressionStatement ma (.exprRecv ch p) stats st
  | .exprOther p => analyzeExpressionStatement ma (.exprOther p) stats st
  | .deferSel c dp => analyzeDeferStatement ma (.deferSel c dp) stats st
  | .deferFunLit body args dp cp => analyzeDeferStatement ma (.deferFunLit body args dp cp) stats st
  | .deferIdentCall f args dp cp => analyzeDeferStatement ma (.deferIdentCall f args dp cp) stats st
  | .ifStmt _ body .noElse p =>
    -- analyzeIfStatement: the then branch is analyzed independently (from
    -- a fresh copy of the analyzer-level stats) and reported immediately
    if ma.inComment p then (stats, st)
    else
      let rThen := runStatements ma body (copyStats (initializeStats ma)) st
      (stats, reportUnmatchedLocksInBranch ma rThen.1 "if" rThen.2)
  | .ifStmt _ body (.elseBlock body2 _) p =>
    -- analyzeIfStatement + analyzeElseBranch on a plain else block
    if ma.inComment p then (stats, st)
    else
      let rThen := runStatements ma body (copyStats (initializeStats ma)) st
      let st1 := reportUnmatchedLocksInBranch ma rThen.1 "if" rThen.2
      let rElse := runStatements ma body2 (copyStats (initializeStats ma)) st1
      (stats, reportUnmatchedLocksInBranch ma rElse.1 "else" rElse.2)
  | .ifStmt _ body (.elseIf e) p =>
    -- analyzeIfStatement + analyzeElseBranch on an else-if: the Go source
    -- wraps `e` in a synthetic one-statement block; analyzing that block
    -- from a fresh map unfolds to the skip test plus one
    -- `analyzeStatement` call written here
    if ma.inComment p then (stats, st)
    else
      let rThen := runStatements ma body (copyStats (initializeStats ma)) st
      let st1 := reportUnmatchedLocksInBranch ma rThen.1 "if" rThen.2
      let rElse :=
        if shouldSkipStatement ma.inComment e then (copyStats (initializeStats ma), st1)
        else analyzeStatement ma e (copyStats (initializeStats ma)) st1
      (stats, reportUnmatchedLocksInBranch ma rElse.1 "else" rElse.2)
  | .ifStmt _ body (.elseOther _) p =>
    -- analyzeIfStatement + the default arm of analyzeElseBranch (a fresh
    -- empty stats map)
    if ma.inComment p then (stats, st)
    else
      let rThen := runStatements ma body (copyStats (initializeStats ma)) st
      let st1 := reportUnmatchedLocksInBranch ma rThen.1 "if" rThen.2
      let rElse : StatsMap × AState := ((fun _ => Stats.empty), st1)
      (stats, reportUnmatchedLocksInBranch ma rElse.1 "else" rElse.2)
  | .goFunLit body _ p =>
    -- analyzeGoStatement: the goroutine body is an independent scope,
    -- reported with the `goroutine` tag
    if ma.inComment p then (stats, st)
    else
      let r := runStatements ma body (copyStats (initializeStats ma)) st
      (stats, reportUnmatchedLocksInBranch ma r.1 "goroutine" r.2)
  | .goIdentCall _ _ _ =>
    -- analyzeGoStatement on a `go` call without a function literal: no-op
    (stats, st)
  | .forStmt body p =>
    -- analyzeForStatement: the loop body residue is merged, not reported
    if ma.inComment p then (stats, st)
    else
      let r := runStatements ma body (copyStats (initializeStats ma)) st
      (mergeStats stats r.1, r.2)
  | .rangeStmt body _ =>
    -- analyzeRangeStatement (no comment check in the source)
    let r := runStatements ma body (copyStats (initializeStats ma)) st
    (mergeStats stats r.1, r.2)
  | .switchStmt cases _ =>
    -- analyzeSwitchStatement: per-case independent analysis, tag `case`
    (stats, analyzeCaseClauses ma cases "case" st)
  | .typeSwitchStmt cases _ =>
    -- analyzeTypeSwitchStatement: same per-case loop, tag `case`
    (stats, analyzeCaseClauses ma cases "case" st)
  | .selectStmt cases _ =>
    -- analyzeSelectStatement: same per-clause loop, tag `select`
    (stats, analyzeCaseClauses ma cases "select" st)
  | .blockStmt body _ =>
    -- nested block: analyze independently, then mergeStats into the parent
    let r := runStatements ma body (copyStats (initializeStats ma)) st
    (mergeStats stats r.1, r.2)
  | .sendStmt _ _ => (stats, st)
  | .returnStmt _ => (stats, st)
  | .branchStmt _ _ => (stats, st)
  | .otherStmt _ => (stats, st)
termination_by structural s

/-- The statement loop shared by `analyzeBlock` and `analyzeStatements`
(skip commented statements, analyze the rest in order). -/
def runStatements (ma : Analyzer) (stmts : List Stmt) (stats : StatsMap)
    (st : AState) : StatsMap × AState :=
  match stmts with
  | [] => (stats, st)
  | s :: rest =>
    if shouldSkipStatement ma.inComment s then runStatements ma rest stats st
    else
      let r := analyzeStatement ma s stats st
      runStatements ma rest r.1 r.2
termination_by structural stmts

/-- The per-clause loop of `analyzeSwitchStatement`,
`analyzeTypeSwitchStatement` and `analyzeSelectStatement`: analyze each
clause body as an independent scope and report with the branch tag. -/
def analyzeCaseClauses (ma : Analyzer) (cases : List (Bool × List Stmt))
    (branchType : String) (st : AState) : AState :=
  match cases with
  | [] => st
  | (_, body) :: rest =>
    let r := runStatements ma body (copyStats (initializeStats ma)) st
    let st1 := reportUnmatchedLocksInBranch ma r.1 branchType r.2
    analyzeCaseClauses ma rest branchType st1
termination_by structural cases

end

/-- Embeds `analyzeStatements` (and the textually identical `analyzeBlock`):
a fresh copy of the analyzer-level stats map (`ma.copyStats(ma.stats)`, the
zero map set up by `initializeStats`) is threaded through the statement
list. -/
def analyzeStatements (ma : Analyzer) (stmts : List Stmt) (st : AState) :
    StatsMap × AState :=
  runStatements ma stmts (copyStats (initializeStats ma)) st

/-- Embeds `analyzeBlock` (textually identical to `analyzeStatements` in the
source, specialized to a `*ast.BlockStmt`). -/
def analyzeBlock (ma : Analyzer) (body : List Stmt) (st : AState) :
    StatsMap × AState :=
  analyzeStatements ma body st

/-- Embeds `AnalyzeFunction`: initialize the stats, analyze the body, then
report leftover locks at function level. -/
def analyzeFunction (ma : Analyzer) (body : List Stmt) : AState :=
  let r := analyzeBlock ma body AState.initial
  reportUnmatchedLocks ma r.1 r.2

end Mutex

/-!
Concrete program builders and supporting lemmas for the lock-balance
claims.
-/

/-- Statement `v.Lock()` at position `p`. -/
def lockCall (v : String) (p : Pos) : Stmt := .exprCall ⟨.ident v, "Lock", [], p⟩

/-- Statement `v.Unlock()` at position `p`. -/
def unlockCall (v : String) (p : Pos) : Stmt := .exprCall ⟨.ident v, "Unlock", [], p⟩

/-- A function body of straight-line `Lock()` calls at positions `ps`
followed by `Unlock()` calls at positions `qs`, all on variable `v`. -/
def lockUnlockSeq (v : String) (ps qs : List Pos) : List Stmt :=
  ps.map (lockCall v) ++ qs.map (unlockCall v)

/-- Analyzer tracking exactly the plain mutex `v`, in a file with no
comments. -/
def muAnalyzer (v : String) : Mutex.Analyzer := ⟨[v], [], noComments⟩

namespace Mutex

theorem setStats_same (m : StatsMap) (v : String) (s : Stats) : setStats m v s v = s := by
  simp [setStats]

theorem runStatements_append (ma : Analyzer) (l1 l2 : List Stmt) (stats : StatsMap) (st : AState) :
    runStatements ma (l1 ++ l2) stats st =
      runStatements ma l2 (runStatements ma l1 stats st).1 (runStatements ma l1 stats st).2 := by
  induction l1 generalizing stats st with
  | nil => simp [runStatements]
  | cons s rest ih =>
    simp only [List.cons_append, runStatements]
    split
    · exact ih stats st
    · exact ih _ _

theorem runStatements_locks (v : String) (ps : List Pos) (stats : StatsMap) (st : AState) :
    runStatements (muAnalyzer v) (ps.map (lockCall v)) stats st =
      (setStats stats v ⟨(stats v).lock + ps.length, (stats v).rlock,
        (stats v).lockPos ++ ps, (stats v).rlockPos⟩, st) := by
  induction ps generalizing stats with
  | nil =>
    simp only [List.map_nil, runStatements, List.length_nil, Nat.add_zero, List.append_nil]
    congr 1
    funext n
    simp only [setStats]
    by_cases h : n = v
    · subst h; simp
    · simp [h]
  | cons p rest ih =>
    simp only [muAnalyzer] at ih ⊢
    simp only [List.map_cons, runStatements, lockCall, shouldSkipStatement, noComments,
      Stmt.pos, analyzeStatement, analyzeExpressionStatement, getVarName,
      List.contains_cons, beq_self_eq_true, Bool.true_or, if_true, List.contains_nil,
      Bool.false_eq_true, if_false, handleMutexCall, Bool.or_self]
    rw [ih]
    congr 1
    funext n
    by_cases h : n = v
    · subst h
      simp [setStats, Stats.mk.injEq]
      try omega
    · simp [setStats, h]

theorem runStatements_unlocks (v : String) (qs : List Pos) (stats : StatsMap) (st : AState)
    (hwf : (stats v).lock = (stats v).lockPos.length)
    (hle : qs.length ≤ (stats v).lock) :
    runStatements (muAnalyzer v) (qs.map (unlockCall v)) stats st =
      (setStats stats v ⟨(stats v).lock - qs.length, (stats v).rlock,
        (stats v).lockPos.drop qs.length, (stats v).rlockPos⟩, st) := by
  induction qs generalizing stats with
  | nil =>
    simp only [List.map_nil, runStatements, List.length_nil, Nat.sub_zero, List.drop_zero]
    congr 1
    funext n
    simp only [setStats]
    by_cases h : n = v
    · subst h; simp
    · simp [h]
  | cons q rest ih =>
    simp only [muAnalyzer] at ih ⊢
    have hpos : (stats v).lock ≠ 0 := by simp at hle; omega
    simp only [List.map_cons, runStatements, unlockCall, shouldSkipStatement, noComments,
      Stmt.pos, analyzeStatement, analyzeExpressionStatement, getVarName,
      List.contains_cons, beq_self_eq_true, Bool.true_or, if_true, List.contains_nil,
      Bool.false_eq_true, if_false, handleMutexCall, Bool.or_self]
    rw [if_neg hpos]
    have hne : (stats v).lockPos ≠ [] := by
      intro hnil
      rw [hnil] at hwf
      simp at hwf
      exact hpos hwf
    obtain ⟨hd, tl, htl⟩ := List.exists_cons_of_ne_nil hne
    rw [ih]
    · congr 1
      funext n
      by_cases h : n = v
      · subst h
        simp [setStats, removeFirstLockPos, htl, Stats.mk.injEq]
        omega
      · simp [setStats, removeFirstLockPos, h]
    · simp [setStats, removeFirstLockPos, htl]
      rw [htl] at hwf
      simp at hwf
      omega
    · simp [setStats, removeFirstLockPos, htl]
      simp at hle
      omega

theorem foldl_addError_errors (l : List Pos) (m : String) (st : AState) :
    (l.foldl (fun acc pos => addError acc pos m) st).errors =
      st.errors ++ l.map (fun p => (⟨p, m⟩ : ErrorReport)) := by
  induction l generalizing st with
  | nil => simp
  | cons p rest ih =>
    simp only [List.foldl_cons, List.map_cons]
    rw [ih]
    simp [addError]

/-- Characterizes the analyzer on a straight-line sequence of locks
followed by at most as many unlocks: every unlock consumes the oldest
recorded acquisition, and each remaining acquisition is reported at
function level as locked-but-not-unlocked, in position order. -/
theorem analyzeFunction_lockUnlockSeq (v : String) (ps qs : List Pos)
    (hle : qs.length ≤ ps.length) :
    (analyzeFunction (muAnalyzer v) (lockUnlockSeq v ps qs)).errors =
      (ps.drop qs.length).map (fun p => (⟨p, lockedNotUnlockedMsg "mutex" v⟩ : ErrorReport)) := by
  unfold analyzeFunction analyzeBlock analyzeStatements lockUnlockSeq
  rw [runStatements_append, runStatements_locks, runStatements_unlocks]
  · simp only [copyStats, initializeStats, Stats.empty, setStats_same]
    simp only [reportUnmatchedLocks, muAnalyzer, List.foldl, AState.initial]
    simp only [reportUnmatchedMutexLocks, reportUnmatchedMutexLocksWithContext,
      Bool.false_eq_true, if_false, foldl_addError_errors, setStats_same]
    simp [List.map_drop]
  · simp [copyStats, initializeStats, setStats, Stats.empty]
  · simp [copyStats, initializeStats, setStats, Stats.empty]
    omega

/-- Invariant of one `Stats` value: counts equal position-list lengths. -/
def StatsWF (s : Stats) : Prop :=
  s.lock = s.lockPos.length ∧ s.rlock = s.rlockPos.length

/-- Invariant of a whole stats map. -/
def StatsMapWF (m : StatsMap) : Prop := ∀ n, StatsWF (m n)

theorem handleMutexCall_wf (v meth : String) (pos : Pos) (stats : StatsMap) (st : AState)
    (h : StatsMapWF stats) : StatsMapWF (handleMutexCall v meth pos stats st).1 := by
  unfold handleMutexCall
  split
  · intro n
    simp only [setStats]
    by_cases hn : n = v
    · subst hn
      simp only [if_pos rfl]
      obtain ⟨h1, h2⟩ := h n
      exact ⟨by simp [h1], h2⟩
    · simp only [if_neg hn]
      exact h n
  · split
    · exact h
    · intro n
      simp only [setStats]
      by_cases hn : n = v
      · subst hn
        simp only [if_pos rfl]
        obtain ⟨h1, h2⟩ := h n
        rename_i hne _
        unfold removeFirstLockPos
        have hlen : (stats n).lockPos.length = (stats n).lock := h1.symm
        cases hpos : (stats n).lockPos with
        | nil => rw [hpos] at hlen; simp at hlen; omega
        | cons a rest =>
          simp only
          rw [hpos] at hlen
          simp at hlen
          exact ⟨by simp; omega, h2⟩
      · simp only [if_neg hn]
        exact h n
  · exact h

theorem handleRWMutexCall_wf (v meth : String) (pos : Pos) (stats : StatsMap) (st : AState)
    (h : StatsMapWF stats) : StatsMapWF (handleRWMutexCall v meth pos stats st).1 := by
  unfold handleRWMutexCall
  split
  · intro n
    simp only [setStats]
    by_cases hn : n = v
    · subst hn
      simp only [if_pos rfl]
      obtain ⟨h1, h2⟩ := h n
      exact ⟨by simp [h1], h2⟩
    · simp only [if_neg hn]
      exact h n
  · split
    · exact h
    · intro n
      simp only [setStats]
      by_cases hn : n = v
      · subst hn
        simp only [if_pos rfl]
        obtain ⟨h1, h2⟩ := h n
        rename_i hne _
        unfold removeFirstLockPos
        have hlen : (stats n).lockPos.length = (stats n).lock := h1.symm
        cases hpos : (stats n).lockPos with
        | nil => rw [hpos] at hlen; simp at hlen; omega
        | cons a rest =>
          simp only
          rw [hpos] at hlen
          simp at hlen
          exact ⟨by simp; omega, h2⟩
      · simp only [if_neg hn]
        exact h n
  · intro n
    simp only [setStats]
    by_cases hn : n = v
    · subst hn
      simp only [if_pos rfl]
      obtain ⟨h1, h2⟩ := h n
      exact ⟨h1, by simp [h2]⟩
    · simp only [if_neg hn]
      exact h n
  · split
    · exact h
    · intro n
      simp only [setStats]
      by_cases hn : n = v
      · subst hn
        simp only [if_pos rfl]
        obtain ⟨h1, h2⟩ := h n
        rename_i hne _
        unfold removeFirstRLockPos
        have hlen : (stats n).rlockPos.length = (stats n).rlock := h2.symm
        cases hpos : (stats n).rlockPos with
        | nil => rw [hpos] at hlen; simp at hlen; omega
        | cons a rest =>
          simp only
          rw [hpos] at hlen
          simp at hlen
          exact ⟨h1, by simp; omega⟩
      · simp only [if_neg hn]
        exact h n
  · exact h

theorem handleDeferUnlock_wf (v : String) (pos : Pos) (stats : StatsMap) (st : AState)
    (isRW : Bool) (h : StatsMapWF stats) :
    StatsMapWF (handleDeferUnlock v pos stats st isRW).1 := by
  unfold handleDeferUnlock
  split
  · exact h
  · intro n
    simp only [setStats]
    by_cases hn : n = v
    · subst hn
      simp only [if_pos rfl]
      obtain ⟨h1, h2⟩ := h n
      rename_i hne
      unfold removeFirstLockPos
      have hlen : (stats n).lockPos.length = (stats n).lock := h1.symm
      cases hpos : (stats n).lockPos with
      | nil => rw [hpos] at hlen; simp at hlen; omega
      | cons a rest =>
        simp only
        rw [hpos] at hlen
        simp at hlen
        exact ⟨by simp; omega, h2⟩
    · simp only [if_neg hn]
      exact h n

theorem handleDeferRUnlock_wf (v : String) (pos : Pos) (stats : StatsMap) (st : AState)
    (h : StatsMapWF stats) :
    StatsMapWF (handleDeferRUnlock v pos stats st).1 := by
  unfold handleDeferRUnlock
  split
  · exact h
  · intro n
    simp only [setStats]
    by_cases hn : n = v
    · subst hn
      simp only [if_pos rfl]
      obtain ⟨h1, h2⟩ := h n
      rename_i hne
      unfold removeFirstRLockPos
      have hlen : (stats n).rlockPos.length = (stats n).rlock := h2.symm
      cases hpos : (stats n).rlockPos with
      | nil => rw [hpos] at hlen; simp at hlen; omega
      | cons a rest =>
        simp only
        rw [hpos] at hlen
        simp at hlen
        exact ⟨h1, by simp; omega⟩
    · simp only [if_neg hn]
      exact h n

theorem mergeStats_wf (parent child : StatsMap)
    (hp : StatsMapWF parent) (hc : StatsMapWF child) :
    StatsMapWF (mergeStats parent child) := by
  intro n
  obtain ⟨p1, p2⟩ := hp n
  obtain ⟨c1, c2⟩ := hc n
  exact ⟨by simp [mergeStats, p1, c1], by simp [mergeStats, p2, c2]⟩

theorem copyStats_wf (m : StatsMap) (h : StatsMapWF m) : StatsMapWF (copyStats m) := h

theorem initializeStats_wf (ma : Analyzer) : StatsMapWF (initializeStats ma) := by
  intro n
  exact ⟨rfl, rfl⟩

theorem reportWithContext_clean (name : String) (s : Stats) (isRW : Bool) (b : String)
    (st : AState) (h1 : s.lockPos = []) (h2 : isRW = true → s.rlockPos = []) :
    reportUnmatchedMutexLocksWithContext name s isRW b st = st := by
  unfold reportUnmatchedMutexLocksWithContext
  rw [h1]
  cases isRW
  · simp
  · simp [h2 rfl]

theorem reportUnmatchedLocks_no_marked_report (ma : Analyzer) (stats : StatsMap) (st : AState)
    (hmu : ∀ w ∈ ma.mutexNames, st.badDeferUnlock w = false → (stats w).lockPos = [])
    (hrw : ∀ w ∈ ma.rwMutexNames, (st.badDeferUnlock w || st.badDeferRUnlock w) = false →
      (stats w).lockPos = [] ∧ (stats w).rlockPos = []) :
    reportUnmatchedLocks ma stats st = st := by
  unfold reportUnmatchedLocks
  have step1 : ∀ (names : List String),
      (∀ w ∈ names, st.badDeferUnlock w = false → (stats w).lockPos = []) →
      ∀ acc, names.foldl
        (fun acc name =>
          if st.badDeferUnlock name then acc
          else reportUnmatchedMutexLocks name (stats name) false acc) acc = acc := by
    intro names
    induction names with
    | nil => intro _ acc; rfl
    | cons w rest ih =>
      intro hall acc
      simp only [List.foldl_cons]
      by_cases hb : st.badDeferUnlock w
      · rw [if_pos hb]
        exact ih (fun x hx => hall x (List.mem_cons_of_mem _ hx)) acc
      · rw [if_neg hb]
        rw [reportUnmatchedMutexLocks, reportWithContext_clean _ _ _ _ _
          (hall w (List.mem_cons_self _ _) (by simp [hb])) (by intro hfalse; cases hfalse)]
        exact ih (fun x hx => hall x (List.mem_cons_of_mem _ hx)) acc
  have step2 : ∀ (names : List String),
      (∀ w ∈ names, (st.badDeferUnlock w || st.badDeferRUnlock w) = false →
        (stats w).lockPos = [] ∧ (stats w).rlockPos = []) →
      ∀ acc, names.foldl
        (fun acc name =>
          if st.badDeferUnlock name || st.badDeferRUnlock name then acc
          else reportUnmatchedMutexLocks name (stats name) true acc) acc = acc := by
    intro names
    induction names with
    | nil => intro _ acc; rfl
    | cons w rest ih =>
      intro hall acc
      simp only [List.foldl_cons]
      by_cases hb : (st.badDeferUnlock w || st.badDeferRUnlock w) = true
      · rw [if_pos hb]
        exact ih (fun x hx => hall x (List.mem_cons_of_mem _ hx)) acc
      · simp only [Bool.not_eq_true] at hb
        rw [if_neg (by simp [hb])]
        obtain ⟨e1, e2⟩ := hall w (List.mem_cons_self _ _) hb
        rw [reportUnmatchedMutexLocks, reportWithContext_clean _ _ _ _ _ e1 (fun _ => e2)]
        exact ih (fun x hx => hall x (List.mem_cons_of_mem _ hx)) acc
  rw [step1 ma.mutexNames hmu st, step2 ma.rwMutexNames hrw st]

end Mutex

/-!
Claim theorems for the lock-balance analyzer.
-/

/-- C1: for every lock variable and every straight-line sequence of N
`Lock()` calls followed by N `Unlock()` calls in one function body, the
analyzer produces zero diagnostics; for N+1 `Lock()` calls followed by N
`Unlock()` calls it produces exactly one locked-but-not-unlocked
diagnostic, positioned at the (N+1)-th `Lock()` call. -/
theorem c1_straight_line_lock_balance (v : String) (ps qs : List Pos) :
    (ps.length = qs.length →
      (Mutex.analyzeFunction (muAnalyzer v) (lockUnlockSeq v ps qs)).errors = []) ∧
    (∀ h : ps.length = qs.length + 1,
      (Mutex.analyzeFunction (muAnalyzer v) (lockUnlockSeq v ps qs)).errors =
        [⟨ps.get ⟨qs.length, by omega⟩, Mutex.lockedNotUnlockedMsg "mutex" v⟩]) := by
  constructor
  · intro h
    rw [Mutex.analyzeFunction_lockUnlockSeq v ps qs (by omega)]
    rw [List.drop_eq_nil_of_le (by omega)]
    rfl
  · intro h
    rw [Mutex.analyzeFunction_lockUnlockSeq v ps qs (by omega)]
    have h1 : ps.drop qs.length = ps[qs.length] :: ps.drop (qs.length + 1) :=
      List.drop_eq_getElem_cons (by omega)
    rw [h1, List.drop_eq_nil_of_le (by omega)]
    rfl

/-- Witness for C1: three locks and three unlocks yield no diagnostics;
three locks and two unlocks yield exactly one diagnostic at the third
lock position. -/
theorem c1_straight_line_lock_balance_witness :
    (Mutex.analyzeFunction (muAnalyzer "mu") (lockUnlockSeq "mu" [1, 2, 3] [4, 5, 6])).errors = [] ∧
    (Mutex.analyzeFunction (muAnalyzer "mu") (lockUnlockSeq "mu" [1, 2, 3] [4, 5])).errors =
      [⟨3, Mutex.lockedNotUnlockedMsg "mutex" "mu"⟩] :=
  ⟨(c1_straight_line_lock_balance "mu" [1, 2, 3] [4, 5, 6]).1 rfl,
   (c1_straight_line_lock_balance "mu" [1, 2, 3] [4, 5]).2 rfl⟩

/-- C2 counterexample: on `Lock()@1; Lock()@2; Unlock()@3` the analyzer
reports the leftover lock at position 2 — the second `Lock()` — and no
diagnostic at position 1, contradicting the claim that the diagnostic is
positioned at the first `Lock()`: the single `Unlock()` pairs with the
oldest acquisition, so the first lock is the one that gets matched. -/
theorem c2_fifo_pairing_counterexample :
    (Mutex.analyzeFunction (muAnalyzer "mu") (lockUnlockSeq "mu" [1, 2] [3])).errors =
      [⟨2, Mutex.lockedNotUnlockedMsg "mutex" "mu"⟩] ∧
    ∀ e ∈ (Mutex.analyzeFunction (muAnalyzer "mu") (lockUnlockSeq "mu" [1, 2] [3])).errors,
      e.pos ≠ 1 :=
  ⟨rfl, by decide⟩

/-- C2 (amended): `Lock(); Lock(); Unlock()` on one mutex variable leaves
exactly one lock outstanding and it is reported at the position of the
second `Lock()` call — not the first — because the single `Unlock()` pairs
with (and thereby discharges) the oldest recorded acquisition. -/
theorem c2_fifo_release_pairing_amended (v : String) (p1 p2 p3 : Pos) :
    (Mutex.analyzeFunction (muAnalyzer v)
      [Stmt.exprCall ⟨.ident v, "Lock", [], p1⟩,
       Stmt.exprCall ⟨.ident v, "Lock", [], p2⟩,
       Stmt.exprCall ⟨.ident v, "Unlock", [], p3⟩]).errors =
      [⟨p2, Mutex.lockedNotUnlockedMsg "mutex" v⟩] := by
  have h := Mutex.analyzeFunction_lockUnlockSeq v [p1, p2] [p3] (by simp)
  simpa [lockUnlockSeq, lockCall, unlockCall] using h

/-- C3: for every lock variable the per-scope state satisfies
`lockCount = len(lockPositions)` and `rlockCount = len(rlockPositions)`
before and after every transition the lock-balance analyzer performs on
it: the map produced by `initializeStats` satisfies the invariant, and
`handleMutexCall`, `handleRWMutexCall`, `handleDeferUnlock`,
`handleDeferRUnlock`, `copyStats` and `mergeStats` (loop-body merging)
each preserve it. -/
theorem c3_lock_count_position_invariant :
    (∀ ma : Mutex.Analyzer, Mutex.StatsMapWF (Mutex.initializeStats ma)) ∧
    (∀ (v meth : String) (pos : Pos) (stats : Mutex.StatsMap) (st : Mutex.AState),
      Mutex.StatsMapWF stats → Mutex.StatsMapWF (Mutex.handleMutexCall v meth pos stats st).1) ∧
    (∀ (v meth : String) (pos : Pos) (stats : Mutex.StatsMap) (st : Mutex.AState),
      Mutex.StatsMapWF stats → Mutex.StatsMapWF (Mutex.handleRWMutexCall v meth pos stats st).1) ∧
    (∀ (v : String) (pos : Pos) (stats : Mutex.StatsMap) (st : Mutex.AState) (isRW : Bool),
      Mutex.StatsMapWF stats → Mutex.StatsMapWF (Mutex.handleDeferUnlock v pos stats st isRW).1) ∧
    (∀ (v : String) (pos : Pos) (stats : Mutex.StatsMap) (st : Mutex.AState),
      Mutex.StatsMapWF stats → Mutex.StatsMapWF (Mutex.handleDeferRUnlock v pos stats st).1) ∧
    (∀ m : Mutex.StatsMap, Mutex.StatsMapWF m → Mutex.StatsMapWF (Mutex.copyStats m)) ∧
    (∀ parent child : Mutex.StatsMap, Mutex.StatsMapWF parent → Mutex.StatsMapWF child →
      Mutex.StatsMapWF (Mutex.mergeStats parent child)) :=
  ⟨Mutex.initializeStats_wf,
   fun v meth pos stats st h => Mutex.handleMutexCall_wf v meth pos stats st h,
   fun v meth pos stats st h => Mutex.handleRWMutexCall_wf v meth pos stats st h,
   fun v pos stats st isRW h => Mutex.handleDeferUnlock_wf v pos stats st isRW h,
   fun v pos stats st h => Mutex.handleDeferRUnlock_wf v pos stats st h,
   Mutex.copyStats_wf,
   Mutex.mergeStats_wf⟩

/-- Witness for C3: the invariant holds after a concrete `Lock` transition
applied to the freshly initialized map. -/
theorem c3_lock_count_position_invariant_witness :
    Mutex.StatsMapWF
      (Mutex.handleMutexCall "mu" "Lock" 5
        (Mutex.initializeStats (muAnalyzer "mu")) Mutex.AState.initial).1 :=
  c3_lock_count_position_invariant.2.1 "mu" "Lock" 5 _ _
    (fun _ => ⟨rfl, rfl⟩)

/-- C4 counterexample: on `mu.Lock()@1; { mu.Unlock()@2 }` the analyzer
reports, inside the nested block, that `mu` is unlocked-but-not-locked
(and then reports the outer lock as never unlocked) — impossible if the
nested scope inherited the parent's outstanding acquisition count of 1,
under which the inner `Unlock()` would simply consume the outer lock. -/
theorem c4_scope_inheritance_counterexample :
    (Mutex.analyzeFunction (muAnalyzer "mu")
      [lockCall "mu" 1, Stmt.blockStmt [unlockCall "mu" 2] 3]).errors =
      [⟨2, Mutex.unlockedNotLockedMsg "mutex" "mu"⟩,
       ⟨1, Mutex.lockedNotUnlockedMsg "mutex" "mu"⟩] := rfl

/-- C4 (amended): when the lock-balance analyzer enters a nested scope (a
conditional branch, case arm, goroutine body, loop body, or nested block),
the child scope's per-variable state is a fresh copy of the analyzer-level
initial (all-zero) map — `ma.stats`, written once by `initializeStats` —
rather than the parent scope's current state; consequently the collector
state produced by analyzing any nested construct is independent of the
parent's accumulated per-variable state, and the immediate-report
constructs leave the parent's stats untouched. -/
theorem c4_nested_scope_fresh_state_amended (ma : Mutex.Analyzer)
    (stats1 stats2 : Mutex.StatsMap) (st : Mutex.AState) :
    (∀ ini body els p,
      (Mutex.analyzeStatement ma (.ifStmt ini body els p) stats1 st).2 =
        (Mutex.analyzeStatement ma (.ifStmt ini body els p) stats2 st).2 ∧
      (Mutex.analyzeStatement ma (.ifStmt ini body els p) stats1 st).1 = stats1) ∧
    (∀ body args p,
      (Mutex.analyzeStatement ma (.goFunLit body args p) stats1 st).2 =
        (Mutex.analyzeStatement ma (.goFunLit body args p) stats2 st).2 ∧
      (Mutex.analyzeStatement ma (.goFunLit body args p) stats1 st).1 = stats1) ∧
    (∀ cases p,
      (Mutex.analyzeStatement ma (.switchStmt cases p) stats1 st).2 =
        (Mutex.analyzeStatement ma (.switchStmt cases p) stats2 st).2 ∧
      (Mutex.analyzeStatement ma (.switchStmt cases p) stats1 st).1 = stats1) ∧
    (∀ cases p,
      (Mutex.analyzeStatement ma (.typeSwitchStmt cases p) stats1 st).2 =
        (Mutex.analyzeStatement ma (.typeSwitchStmt cases p) stats2 st).2 ∧
      (Mutex.analyzeStatement ma (.typeSwitchStmt cases p) stats1 st).1 = stats1) ∧
    (∀ cases p,
      (Mutex.analyzeStatement ma (.selectStmt cases p) stats1 st).2 =
        (Mutex.analyzeStatement ma (.selectStmt cases p) stats2 st).2 ∧
      (Mutex.analyzeStatement ma (.selectStmt cases p) stats1 st).1 = stats1) ∧
    (∀ body p,
      (Mutex.analyzeStatement ma (.forStmt body p) stats1 st).2 =
        (Mutex.analyzeStatement ma (.forStmt body p) stats2 st).2) ∧
    (∀ body p,
      (Mutex.analyzeStatement ma (.rangeStmt body p) stats1 st).2 =
        (Mutex.analyzeStatement ma (.rangeStmt body p) stats2 st).2) ∧
    (∀ body p,
      (Mutex.analyzeStatement ma (.blockStmt body p) stats1 st).2 =
        (Mutex.analyzeStatement ma (.blockStmt body p) stats2 st).2) := by
  refine ⟨?_, ?_, ?_, ?_, ?_, ?_, ?_, ?_⟩
  · intro ini body els p
    cases els <;> constructor <;> simp [Mutex.analyzeStatement] <;> split <;> rfl
  · intro body args p
    constructor <;> simp [Mutex.analyzeStatement] <;> split <;> rfl
  · intro cases p
    constructor <;> simp [Mutex.analyzeStatement]
  · intro cases p
    constructor <;> simp [Mutex.analyzeStatement]
  · intro cases p
    constructor <;> simp [Mutex.analyzeStatement]
  · intro body p
    simp [Mutex.analyzeStatement]
    split <;> rfl
  · intro body p
    simp [Mutex.analyzeStatement]
  · intro body p
    simp [Mutex.analyzeStatement]

/-- C7: a deferred unlock (reached directly or from scanning a deferred
closure body, both of which call `handleDeferUnlock`) for a variable with
no outstanding acquisition immediately emits defer-unlock-without-lock,
leaves the stats untouched and marks the variable in `badDeferUnlock`;
`reportUnmatchedLocks` then emits nothing beyond the already-collected
errors whenever every unmarked variable is clean — in particular nothing
for the marked variable itself, whatever its recorded positions; and on
the concrete body `defer mu.Unlock(); mu.Lock()` the analyzer emits
exactly the one defer diagnostic even though an acquisition is recorded
later in the body. -/
theorem c7_defer_unlock_no_lock :
    (∀ (v : String) (pos : Pos) (stats : Mutex.StatsMap) (st : Mutex.AState) (isRW : Bool),
      (stats v).lock = 0 →
      (Mutex.handleDeferUnlock v pos stats st isRW).1 = stats ∧
      (Mutex.handleDeferUnlock v pos stats st isRW).2.errors =
        st.errors ++ [⟨pos, Mutex.deferUnlockMsg (if isRW then "rwmutex" else "mutex") v⟩] ∧
      (Mutex.handleDeferUnlock v pos stats st isRW).2.badDeferUnlock v = true) ∧
    (∀ (ma : Mutex.Analyzer) (stats : Mutex.StatsMap) (st : Mutex.AState),
      (∀ w ∈ ma.mutexNames, st.badDeferUnlock w = false → (stats w).lockPos = []) →
      (∀ w ∈ ma.rwMutexNames, (st.badDeferUnlock w || st.badDeferRUnlock w) = false →
        (stats w).lockPos = [] ∧ (stats w).rlockPos = []) →
      (Mutex.reportUnmatchedLocks ma stats st).errors = st.errors) ∧
    (Mutex.analyzeFunction (muAnalyzer "mu")
      [Stmt.deferSel ⟨.ident "mu", "Unlock", [], 2⟩ 1,
       Stmt.exprCall ⟨.ident "mu", "Lock", [], 3⟩]).errors =
      [⟨1, Mutex.deferUnlockMsg "mutex" "mu"⟩] := by
  refine ⟨?_, ?_, rfl⟩
  · intro v pos stats st isRW h
    unfold Mutex.handleDeferUnlock
    rw [if_pos h]
    refine ⟨rfl, ?_, by simp [Mutex.markBadDeferUnlock]⟩
    cases isRW <;> simp [Mutex.markBadDeferUnlock, Mutex.addError]
  · intro ma stats st h1 h2
    rw [Mutex.reportUnmatchedLocks_no_marked_report ma stats st h1 h2]

/-- Witness for C7: a deferred unlock on the freshly initialized map marks
`mu`, and finalization with `mu` marked emits nothing even though `mu` has
a recorded lock position. -/
theorem c7_defer_unlock_no_lock_witness :
    (Mutex.handleDeferUnlock "mu" 7 (Mutex.initializeStats (muAnalyzer "mu"))
        Mutex.AState.initial false).2.badDeferUnlock "mu" = true ∧
    (Mutex.reportUnmatchedLocks (muAnalyzer "mu")
        (Mutex.setStats (Mutex.initializeStats (muAnalyzer "mu")) "mu" ⟨1, 0, [5], []⟩)
        (Mutex.markBadDeferUnlock Mutex.AState.initial "mu")).errors =
      (Mutex.markBadDeferUnlock Mutex.AState.initial "mu").errors :=
  ⟨(c7_defer_unlock_no_lock.1 "mu" 7 _ _ false rfl).2.2,
   c7_defer_unlock_no_lock.2.1 (muAnalyzer "mu") _ _
     (by
       intro w hw hb
       simp [muAnalyzer] at hw
       subst hw
       simp [Mutex.markBadDeferUnlock, Mutex.AState.initial] at hb)
     (by
       intro w hw
       simp [muAnalyzer] at hw)⟩

/-!
Embedding of the diagnostic collector (`checker/report/report.go`).
-/

namespace Report

/-- Resolved source position, mirroring `token.Position` as used by
`ReportAll`: `(filename, line, column)`. -/
structure Position where
  filename : String
  line : Nat
  col : Nat
deriving DecidableEq, Repr

/-- The host position resolver `pass.Fset.Position`. -/
abbrev FileSet := Pos → Position

/-- The comparison closure passed to `sort.Slice` in `ReportAll`, as a
non-strict relation: `posLe fset a b` holds iff the `less` function of the
source does NOT put `b` strictly before `a` — lexicographic order on
`(filename, line, column)` of the resolved positions. -/
def posLe (fset : FileSet) (a b : ErrorReport) : Prop :=
  (fset a.pos).filename < (fset b.pos).filename ∨
    ((fset a.pos).filename = (fset b.pos).filename ∧
      ((fset a.pos).line < (fset b.pos).line ∨
        ((fset a.pos).line = (fset b.pos).line ∧ (fset a.pos).col ≤ (fset b.pos).col)))

/-- Strict version of `posLe` (the `less` function of the source). -/
def posLt (fset : FileSet) (a b : ErrorReport) : Prop :=
  (fset a.pos).filename < (fset b.pos).filename ∨
    ((fset a.pos).filename = (fset b.pos).filename ∧
      ((fset a.pos).line < (fset b.pos).line ∨
        ((fset a.pos).line = (fset b.pos).line ∧ (fset a.pos).col < (fset b.pos).col)))

instance (fset : FileSet) : DecidableRel (posLe fset) := fun a b => by
  unfold posLe; infer_instance

instance (fset : FileSet) : DecidableRel (posLt fset) := fun a b => by
  unfold posLt; infer_instance

instance (fset : FileSet) : IsTotal ErrorReport (posLe fset) := by
  constructor
  intro a b
  unfold posLe
  rcases lt_trichotomy (fset a.pos).filename (fset b.pos).filename with h | h | h
  · exact Or.inl (Or.inl h)
  · rcases lt_trichotomy (fset a.pos).line (fset b.pos).line with h2 | h2 | h2
    · exact Or.inl (Or.inr ⟨h, Or.inl h2⟩)
    · rcases Nat.le_total (fset a.pos).col (fset b.pos).col with h3 | h3
      · exact Or.inl (Or.inr ⟨h, Or.inr ⟨h2, h3⟩⟩)
      · exact Or.inr (Or.inr ⟨h.symm, Or.inr ⟨h2.symm, h3⟩⟩)
    · exact Or.inr (Or.inr ⟨h.symm, Or.inl h2⟩)
  · exact Or.inr (Or.inl h)

instance (fset : FileSet) : IsTrans ErrorReport (posLe fset) := by
  constructor
  intro a b c hab hbc
  unfold posLe at *
  rcases hab with h1 | ⟨e1, h1⟩
  · rcases hbc with h2 | ⟨e2, h2⟩
    · exact Or.inl (h1.trans h2)
    · exact Or.inl (e2 ▸ h1)
  · rcases hbc with h2 | ⟨e2, h2⟩
    · exact Or.inl (e1 ▸ h2)
    · refine Or.inr ⟨e1.trans e2, ?_⟩
      rcases h1 with h1 | ⟨l1, h1⟩
      · rcases h2 with h2 | ⟨l2, h2⟩
        · exact Or.inl (h1.trans h2)
        · exact Or.inl (l2 ▸ h1)
      · rcases h2 with h2 | ⟨l2, h2⟩
        · exact Or.inl (l1 ▸ h2)
        · exact Or.inr ⟨l1.trans l2, h1.trans h2⟩

/-- Embeds `ErrorCollector.ReportAll`: sort the collected errors by
`(filename, line, column)` of their resolved positions and emit them in
that order (the source calls `pass.Reportf` once per entry).  Go's
`sort.Slice` runs an unspecified deterministic comparison sort — an
insertion sort for the slice lengths at issue here — every outcome of
which is a permutation of the input sorted with respect to `posLe`;
the model fixes the stable insertion sort. -/
def reportAll (fset : FileSet) (errors : List ErrorReport) : List ErrorReport :=
  List.insertionSort (posLe fset) errors

theorem reportAll_perm (fset : FileSet) (l : List ErrorReport) :
    (reportAll fset l).Perm l :=
  List.perm_insertionSort (posLe fset) l

theorem reportAll_sorted (fset : FileSet) (l : List ErrorReport) :
    (reportAll fset l).Sorted (posLe fset) :=
  List.sorted_insertionSort (posLe fset) l

theorem posLt_asymm (fset : FileSet) (a b : ErrorReport)
    (h1 : posLt fset a b) (h2 : posLt fset b a) : False := by
  unfold posLt at *
  rcases h1 with h1 | ⟨e1, h1⟩
  · rcases h2 with h2 | ⟨e2, h2⟩
    · exact absurd (h1.trans h2) (lt_irrefl _)
    · exact absurd h1 (e2 ▸ lt_irrefl _)
  · rcases h2 with h2 | ⟨e2, h2⟩
    · exact absurd h2 (e1 ▸ lt_irrefl _)
    · rcases h1 with h1 | ⟨l1, h1⟩
      · rcases h2 with h2 | ⟨l2, h2⟩
        · exact absurd (h1.trans h2) (lt_irrefl _)
        · exact absurd h1 (l2 ▸ lt_irrefl _)
      · rcases h2 with h2 | ⟨l2, h2⟩
        · exact absurd h2 (l1 ▸ lt_irrefl _)
        · exact absurd (h1.trans h2) (lt_irrefl _)

theorem posLe_of_ne_keys (fset : FileSet) (a b : ErrorReport)
    (hle : posLe fset a b) (hne : fset a.pos ≠ fset b.pos) : posLt fset a b := by
  unfold posLe at hle
  unfold posLt
  rcases hle with h | ⟨e, h⟩
  · exact Or.inl h
  · refine Or.inr ⟨e, ?_⟩
    rcases h with h | ⟨l, h⟩
    · exact Or.inl h
    · refine Or.inr ⟨l, ?_⟩
      rcases Nat.lt_or_ge (fset a.pos).col (fset b.pos).col with hc | hc
      · exact hc
      · exfalso
        apply hne
        have : (fset a.pos).col = (fset b.pos).col := le_antisymm h hc
        cases hpa : fset a.pos
        cases hpb : fset b.pos
        rw [hpa, hpb] at e l this
        simp at e l this
        simp [e, l, this]

theorem sorted_posLt_of_nodup_keys (fset : FileSet) (l : List ErrorReport)
    (hs : l.Sorted (posLe fset)) (hn : (l.map (fun e => fset e.pos)).Nodup) :
    l.Sorted (posLt fset) := by
  have hp : l.Pairwise (fun a b => fset a.pos ≠ fset b.pos) := by
    unfold List.Nodup at hn
    rw [List.pairwise_map] at hn
    exact hn
  exact (hs.and hp).imp (fun h => posLe_of_ne_keys fset _ _ h.1 h.2)

instance (fset : FileSet) : IsAntisymm ErrorReport (posLt fset) :=
  ⟨fun a b h1 h2 => absurd (posLt_asymm fset a b h1 h2) not_false⟩

/-- With pairwise-distinct resolved positions the emitted sequence is the
same for every insertion order: two permuted inputs sort to the same
strictly-sorted list. -/
theorem reportAll_insertion_order_independent (fset : FileSet)
    (l1 l2 : List ErrorReport) (hperm : l1.Perm l2)
    (hn : (l1.map (fun e => fset e.pos)).Nodup) :
    reportAll fset l1 = reportAll fset l2 := by
  have hn2 : (l2.map (fun e => fset e.pos)).Nodup := (hperm.map _).nodup_iff.mp hn
  have p1 : (reportAll fset l1).Perm l1 := reportAll_perm fset l1
  have p2 : (reportAll fset l2).Perm l2 := reportAll_perm fset l2
  have s1 : (reportAll fset l1).Sorted (posLt fset) :=
    sorted_posLt_of_nodup_keys fset _ (reportAll_sorted fset l1)
      (((p1.map _).nodup_iff).mpr hn)
  have s2 : (reportAll fset l2).Sorted (posLt fset) :=
    sorted_posLt_of_nodup_keys fset _ (reportAll_sorted fset l2)
      (((p2.map _).nodup_iff).mpr hn2)
  exact List.eq_of_perm_of_sorted (p1.trans (hperm.trans p2.symm)) s1 s2

end Report

/-- A file set resolving every position to the same file at line equal to
the offset: the realistic situation of diagnostics produced within one
file, where two diagnostics share a resolved position exactly when they
were reported at the same `token.Pos`. -/
def lineFileSet : Report.FileSet := fun p => ⟨"f", p, 1⟩

/-- C8 counterexample: two insertion orders of the same two diagnostics —
same position, different messages, as the analyzers can produce (for
example an Add-called-after-Wait and an Add-without-Done diagnostic
blaming the same call) — are emitted in different orders, so the emitted
sequence is not independent of the order in which diagnostics were added.
Any deterministic comparison sort behaves this way on tied keys: the
comparisons observed are identical for both inputs, so the same index
permutation is applied to both, which maps the two distinct inputs to two
distinct outputs. -/
theorem c8_order_independence_counterexample :
    ([⟨5, "m1"⟩, ⟨5, "m2"⟩] : List ErrorReport).Perm [⟨5, "m2"⟩, ⟨5, "m1"⟩] ∧
    Report.reportAll lineFileSet [⟨5, "m1"⟩, ⟨5, "m2"⟩] ≠
      Report.reportAll lineFileSet [⟨5, "m2"⟩, ⟨5, "m1"⟩] := by
  constructor
  · decide
  · have h1 : Report.posLe lineFileSet ⟨5, "m1"⟩ ⟨5, "m2"⟩ :=
      Or.inr ⟨rfl, Or.inr ⟨rfl, le_refl 1⟩⟩
    have h2 : Report.posLe lineFileSet ⟨5, "m2"⟩ ⟨5, "m1"⟩ :=
      Or.inr ⟨rfl, Or.inr ⟨rfl, le_refl 1⟩⟩
    intro heq
    simp [Report.reportAll, List.insertionSort, List.orderedInsert, h1, h2] at heq

/-- C8 (amended): the diagnostic collector emits every accumulated
(position, message) pair exactly once — none dropped, none duplicated
(the emission is a permutation of the accumulated list); the emitted
sequence is sorted by resolved (filename, line, column); and the emitted
sequence is the same regardless of the order in which the analyzers added
the diagnostics provided no two accumulated diagnostics share the same
resolved (filename, line, column) position. -/
theorem c8_collector_sorted_emission_amended :
    (∀ (fset : Report.FileSet) (l : List ErrorReport), (Report.reportAll fset l).Perm l) ∧
    (∀ (fset : Report.FileSet) (l : List ErrorReport),
      (Report.reportAll fset l).Sorted (Report.posLe fset)) ∧
    (∀ (fset : Report.FileSet) (l1 l2 : List ErrorReport), l1.Perm l2 →
      (l1.map (fun e => fset e.pos)).Nodup →
      Report.reportAll fset l1 = Report.reportAll fset l2) :=
  ⟨Report.reportAll_perm, Report.reportAll_sorted,
   Report.reportAll_insertion_order_independent⟩

/-- Witness for C8: two insertion orders of two distinct-position
diagnostics emit the same sequence. -/
theorem c8_collector_sorted_emission_amended_witness :
    Report.reportAll lineFileSet [⟨2, "m1"⟩, ⟨1, "m2"⟩] =
      Report.reportAll lineFileSet [⟨1, "m2"⟩, ⟨2, "m1"⟩] :=
  c8_collector_sorted_emission_amended.2.2 lineFileSet _ _ (by decide) (by decide)

/-!
Embedding of the join-counter analyzer (`pkg/analyzer/waitgroup`: stats.go,
goroutines.go, validation.go and the reachability helpers).  As for the
mutex analyzer, the `map[string]*Stats` becomes a total function and the
error collector an explicitly threaded list.  The `forStack` and
`alreadyReported` parameters that the Go source threads through
`traverseWithContext`/`traverseWithReportMap` are never read by any
reachable code path and are omitted.  Go iterates `map[string]bool` key
sets in unspecified order; the model iterates the tracked-name list, which
fixes one order and is observationally equal for single-variable
programs. -/

namespace Wg

/-- Embeds `waitgroup.Stats`: per-variable join-counter bookkeeping.
`addCalls` entries are `(position, value)` pairs (`addCall` in the
source). -/
structure Stats where
  addCalls : List (Pos × Nat)
  doneCalls : List Pos
  waitCalls : List Pos
  doneCount : Nat
  hasDeferDone : Bool
  totalAdd : Nat
deriving DecidableEq, Repr

/-- The zero `Stats` created by `initializeStats`. -/
def Stats.empty : Stats := ⟨[], [], [], 0, false, 0⟩

/-- The per-function `map[string]*Stats`, as a total function. -/
abbrev StatsMap := String → Stats

/-- Pointwise update of one entry. -/
def setStats (m : StatsMap) (name : String) (s : Stats) : StatsMap :=
  fun n => if n = name then s else m n

/-- Embeds the analyzer: tracked names, comment filter, and the function
body under analysis (`wga.function.Body`). -/
structure Analyzer where
  waitGroupNames : List String
  inComment : CommentFilter
  body : List Stmt

/-- Message `waitgroup 'v' has Add without corresponding Done`. -/
def addWithoutDoneMsg (v : String) : String :=
  "waitgroup " ++ quoteChar ++ v ++ quoteChar ++ " has Add without corresponding Done"

/-- Message `waitgroup 'v' has Done without corresponding Add`. -/
def doneWithoutAddMsg (v : String) : String :=
  "waitgroup " ++ quoteChar ++ v ++ quoteChar ++ " has Done without corresponding Add"

/-- Message `waitgroup 'v' Add called after Wait`. -/
def addAfterWaitMsg (v : String) : String :=
  "waitgroup " ++ quoteChar ++ v ++ quoteChar ++ " Add called after Wait"

/-- Embeds `initializeStats`: fresh zero stats for every tracked name. -/
def initializeStats (_ : Analyzer) : StatsMap := fun _ => Stats.empty

/-- Embeds `findDoneInFunctionLiteral`: mark `hasDeferDone` for every
tracked variable with a (non-commented) `Done` selector call anywhere in
the deferred closure body. -/
def findDoneInFunctionLiteral (wga : Analyzer) (fbody : List Stmt)
    (stats : StatsMap) : StatsMap :=
  (allCalls fbody).foldl
    (fun acc c =>
      if wga.inComment c.pos then acc
      else if c.meth == "Done" && wga.waitGroupNames.contains (getVarName c.recv) then
        setStats acc (getVarName c.recv) { acc (getVarName c.recv) with hasDeferDone := true }
      else acc)
    stats

/-- Embeds `findDeferDoneCalls`: every `defer name.Done()` with a plain
identifier receiver of a tracked name sets `hasDeferDone`; a deferred
function literal is scanned by `findDoneInFunctionLiteral`. -/
def findDeferDoneCalls (wga : Analyzer) (stats : StatsMap) : StatsMap :=
  (allDeferStmts wga.body).foldl
    (fun acc d =>
      match d with
      | .deferSel c _ =>
        if wga.inComment c.pos then acc
        else
          match c.recv with
          | .ident name =>
            if c.meth == "Done" && wga.waitGroupNames.contains name then
              setStats acc name { acc name with hasDeferDone := true }
            else acc
          | .nonIdent => acc
      | .deferFunLit fbody _ _ cp =>
        if wga.inComment cp then acc
        else findDoneInFunctionLiteral wga fbody acc
      | .deferIdentCall _ _ _ cp =>
        if wga.inComment cp then acc
        else acc
      | _ => acc)
    stats

/-- Embeds `handleAddCall`. -/
def handleAddCall (wga : Analyzer) (c : Call) (wgName : String)
    (stats : StatsMap) : StatsMap :=
  if wga.inComment c.pos then stats
  else
    let v := getAddValue c
    let s := stats wgName
    setStats stats wgName
      { s with addCalls := s.addCalls ++ [(c.pos, v)], totalAdd := s.totalAdd + v }

/-- Embeds `handleDoneCall`. -/
def handleDoneCall (wga : Analyzer) (c : Call) (wgName : String)
    (stats : StatsMap) : StatsMap :=
  if wga.inComment c.pos then stats
  else
    let s := stats wgName
    setStats stats wgName
      { s with doneCount := s.doneCount + 1, doneCalls := s.doneCalls ++ [c.pos] }

/-- Embeds `handleWaitCall`. -/
def handleWaitCall (wga : Analyzer) (c : Call) (wgName : String)
    (stats : StatsMap) : StatsMap :=
  if wga.inComment c.pos then stats
  else
    let s := stats wgName
    setStats stats wgName { s with waitCalls := s.waitCalls ++ [c.pos] }

/-- Embeds `handleExpressionStatement`: a (non-commented) selector call on
a tracked name dispatches on `Add`/`Done`/`Wait`; every other expression
statement leaves the stats unchanged. -/
def handleExpressionStatement (wga : Analyzer) (s : Stmt) (stats : StatsMap) :
    StatsMap :=
  match s with
  | .exprCall c =>
    if shouldSkipStatement wga.inComment (.exprCall c) then stats
    else
      let wgName := getVarName c.recv
      if wga.waitGroupNames.contains wgName then
        match c.meth with
        | "Add" => handleAddCall wga c wgName stats
        | "Done" => handleDoneCall wga c wgName stats
        | "Wait" => handleWaitCall wga c wgName stats
        | _ => stats
      else stats
  | _ => stats

mutual
/-- Embeds `traverseWithContext` with the per-construct handlers
(`handleForStatement`, `handleGoStatement`, `handleBlockStatement`,
`handleIfStatement`) inlined into the dispatch arms.  `handleIfStatement`
sends both the body block and the else node back through
`traverseWithContext`; a block node loops over its list (the block
handler has no comment check); for- and go-bodies loop each element
through `traverseWithReportMap`.  Nodes with no `case` arm in the source
switch (defer, range, switch, type-switch, select, send, return, branch,
other) leave the stats unchanged. -/
def traverseWithContext (wga : Analyzer) (s : Stmt) (stats : StatsMap) :
    StatsMap :=
  match s with
  | .forStmt body p =>
    if wga.inComment p then stats else traverseRepList wga body stats
  | .goFunLit body _ p =>
    if wga.inComment p then stats else traverseRepList wga body stats
  | .goIdentCall _ _ p =>
    if wga.inComment p then stats else stats
  | .blockStmt body _ => traverseCtxList wga body stats
  | .ifStmt _ body .noElse p =>
    if wga.inComment p then stats else traverseCtxList wga body stats
  | .ifStmt _ body (.elseBlock b2 _) p =>
    if wga.inComment p then stats
    else traverseCtxList wga b2 (traverseCtxList wga body stats)
  | .ifStmt _ body (.elseIf e) p =>
    if wga.inComment p then stats
    else traverseWithContext wga e (traverseCtxList wga body stats)
  | .ifStmt _ body (.elseOther _) p =>
    if wga.inComment p then stats else traverseCtxList wga body stats
  | .exprCall c => handleExpressionStatement wga (.exprCall c) stats
  | .exprIdentCall f a p => handleExpressionStatement wga (.exprIdentCall f a p) stats
  | .exprRecv ch p => handleExpressionStatement wga (.exprRecv ch p) stats
  | .exprOther p => handleExpressionStatement wga (.exprOther p) stats
  | _ => stats
termination_by structural s

/-- The loop of `handleBlockStatement`: each element goes back through
`traverseWithContext`. -/
def traverseCtxList (wga : Analyzer) (l : List Stmt) (stats : StatsMap) :
    StatsMap :=
  match l with
  | [] => stats
  | s :: rest => traverseCtxList wga rest (traverseWithContext wga s stats)
termination_by structural l

/-- Embeds `traverseWithReportMap`: identical dispatch except that it has
no `GoStmt` case, so a go statement reached through it is ignored
entirely. -/
def traverseWithReportMap (wga : Analyzer) (s : Stmt) (stats : StatsMap) :
    StatsMap :=
  match s with
  | .forStmt body p =>
    if wga.inComment p then stats else traverseRepList wga body stats
  | .blockStmt body _ => traverseCtxList wga body stats
  | .ifStmt _ body .noElse p =>
    if wga.inComment p then stats else traverseCtxList wga body stats
  | .ifStmt _ body (.elseBlock b2 _) p =>
    if wga.inComment p then stats
    else traverseCtxList wga b2 (traverseCtxList wga body stats)
  | .ifStmt _ body (.elseIf e) p =>
    if wga.inComment p then stats
    else traverseWithContext wga e (traverseCtxList wga body stats)
  | .ifStmt _ body (.elseOther _) p =>
    if wga.inComment p then stats else traverseCtxList wga body stats
  | .exprCall c => handleExpressionStatement wga (.exprCall c) stats
  | .exprIdentCall f a p => handleExpressionStatement wga (.exprIdentCall f a p) stats
  | .exprRecv ch p => handleExpressionStatement wga (.exprRecv ch p) stats
  | .exprOther p => handleExpressionStatement wga (.exprOther p) stats
  | _ => stats
termination_by structural s

/-- The loop in `handleForStatement`/`handleGoStatement`: each body
element goes through `traverseWithReportMap`. -/
def traverseRepList (wga : Analyzer) (l : List Stmt) (stats : StatsMap) :
    StatsMap :=
  match l with
  | [] => stats
  | s :: rest => traverseRepList wga rest (traverseWithReportMap wga s stats)
termination_by structural l
end

/-- Embeds `collectCalls`: the function body is a block, so the
traversal starts with the block handler loop. -/
def collectCalls (wga : Analyzer) (stats : StatsMap) : StatsMap :=
  traverseCtxList wga wga.body stats

/-- The collection pass of `AnalyzeFunction`: initialize, find deferred
Done calls, then collect Add/Done/Wait calls. -/
def collectStats (wga : Analyzer) : StatsMap :=
  collectCalls wga (findDeferDoneCalls wga (initializeStats wga))

/-!
Goroutine analysis (`goroutines.go`) and the reachability helpers.
`isInBlockedGoroutine`, `goroutineCallsDoneOrBlocks` and
`channelHasSender` only reference each other and are called from no
reachable code path, so they are not embedded.  Positions of distinct
call expressions in one file are distinct, so node-identity checks over
call and defer nodes are modelled as position equality.
-/

/-- Embeds `isInGoroutine`: some goroutine function-literal body contains
a call expression at `pos`.  The positions this is queried with are
always positions of selector calls, so the search ranges over the
selector calls of the model. -/
def isInGoroutine (wga : Analyzer) (pos : Pos) : Bool :=
  (allGoFunLits wga.body).any (fun gb => (allCalls gb.1).any (fun c => c.pos == pos))

/-- Embeds `isNodeInGoroutine` at a defer statement: some goroutine
function-literal body contains the defer statement at `dpos`. -/
def isDeferNodeInGoroutine (wga : Analyzer) (dpos : Pos) : Bool :=
  (allGoFunLits wga.body).any (fun gb =>
    (allDeferStmts gb.1).any (fun d => d.pos == dpos))

/-- Embeds `isDeferDoneInGoroutine`: among the non-commented
`defer name.Done()` statements whose receiver is the plain identifier
`wgName`, at least one lies inside a goroutine body and none lies
outside one. -/
def isDeferDoneInGoroutine (wga : Analyzer) (wgName : String) : Bool :=
  let hits := (allDeferStmts wga.body).filterMap (fun d =>
    match d with
    | .deferSel c dp =>
      if wga.inComment c.pos then none
      else
        match c.recv with
        | .ident name =>
          if c.meth == "Done" && name == wgName then some dp else none
        | .nonIdent => none
    | _ => none)
  (hits.any (fun dp => isDeferNodeInGoroutine wga dp)) &&
    !(hits.any (fun dp => !isDeferNodeInGoroutine wga dp))

/-- Embeds `goroutineRelatedToWaitGroup` on a goroutine function-literal
body: some selector call in it has receiver name `wgName`. -/
def goroutineRelatedToWaitGroup (body : List Stmt) (wgName : String) : Bool :=
  (allCalls body).any (fun c => getVarName c.recv == wgName)

/-- Embeds `isSimpleDeferDone`: `defer recv.Done()` whose receiver
resolves to `wgName`. -/
def isSimpleDeferDone (s : Stmt) (wgName : String) : Bool :=
  match s with
  | .deferSel c _ => c.meth == "Done" && getVarName c.recv == wgName
  | _ => false

/-- Embeds `isRecoverCheck`: the if statement's init is a one-value
assignment from a call to the plain identifier `recover`. -/
def isRecoverCheck (ini : IfInit) : Bool :=
  match ini with
  | .assignOneCall f => f == "recover"
  | _ => false

/-- Embeds `isDeferPanicRecoveryPattern` on the body of a deferred
function literal: a preorder walk threads `hasPanicRecovery` (set by a
call to the plain identifier `recover`, including the one in an if-init,
which the inspection visits right after its if node) and
`hasDoneInRecovery` (set at an if node that follows a recover call or is
itself a recover check and whose body contains a `Done` selector call on
`wgName`); the pattern holds when both flags end up set. -/
def isDeferPanicRecoveryPattern (fbody : List Stmt) (wgName : String) : Bool :=
  let r := (stmtsPre fbody).foldl
    (fun acc s =>
      match s with
      | .exprIdentCall f _ _ => (acc.1 || f == "recover", acc.2)
      | .ifStmt ini body _ _ =>
        let hd := acc.2 ||
          ((acc.1 || isRecoverCheck ini) &&
            (allCalls body).any (fun c =>
              c.meth == "Done" && getVarName c.recv == wgName))
        (acc.1 || isRecoverCheck ini, hd)
      | _ => acc)
    (false, false)
  r.1 && r.2

/-- Embeds `doneCallInfo`. -/
structure DoneCallInfo where
  hasAnyDone : Bool
  hasGuaranteedDone : Bool
deriving DecidableEq, Repr

mutual
/-- The statement loop of `analyzeDoneCalls` (the `goroutines.go`
version, whose `switch` has only `DeferStmt`, `ExprStmt` and
`SwitchStmt` cases; the debug prints are omitted): skips commented
statements, returns as soon as a guaranteed Done is recorded, and
otherwise steps through `doneStep`. -/
def doneLoop (wga : Analyzer) (wgName : String) (l : List Stmt)
    (info : DoneCallInfo) : DoneCallInfo :=
  match l with
  | [] => info
  | s :: rest =>
    if shouldSkipStatement wga.inComment s then doneLoop wga wgName rest info
    else if info.hasGuaranteedDone then info
    else
      let r := doneStep wga wgName s info
      if r.2 then r.1 else doneLoop wga wgName rest r.1
termination_by structural l

/-- One arm of the statement switch in `analyzeDoneCalls`; the second
component is true when the source returns from the loop at this
statement.  A `defer recv.Done()` or panic-recovery defer is a
guaranteed Done; a direct `Done` selector call is a guaranteed Done; a
switch statement merges its clause analysis. -/
def doneStep (wga : Analyzer) (wgName : String) (s : Stmt)
    (info : DoneCallInfo) : DoneCallInfo × Bool :=
  match s with
  | .deferSel c dp =>
    if isSimpleDeferDone (.deferSel c dp) wgName then (⟨true, true⟩, true)
    else (info, false)
  | .deferFunLit fbody _ _ _ =>
    if isDeferPanicRecoveryPattern fbody wgName then (⟨true, true⟩, true)
    else (info, false)
  | .exprCall c =>
    if c.meth == "Done" && getVarName c.recv == wgName then (⟨true, true⟩, true)
    else (info, false)
  | .switchStmt cases _ =>
    let r := switchCasesLoop wga wgName cases (false, false, ⟨false, false⟩)
    let si : DoneCallInfo := ⟨r.1, r.2.1 && r.2.2.hasGuaranteedDone⟩
    let info2 : DoneCallInfo := ⟨info.hasAnyDone || si.hasAnyDone, info.hasGuaranteedDone⟩
    if si.hasGuaranteedDone then (⟨info2.hasAnyDone, true⟩, true) else (info2, false)
  | _ => (info, false)
termination_by structural s

/-- The clause loop of `analyzeSwitchStatement`: accumulates
`(hasAnyDone, hasDefault, defaultInfo)`; each clause body is analyzed as
a block, and a later default clause overwrites `defaultInfo`. -/
def switchCasesLoop (wga : Analyzer) (wgName : String)
    (cases : List (Bool × List Stmt)) (acc : Bool × Bool × DoneCallInfo) :
    Bool × Bool × DoneCallInfo :=
  match cases with
  | [] => acc
  | (isDefault, body) :: rest =>
    let ci := doneLoop wga wgName body ⟨false, false⟩
    switchCasesLoop wga wgName rest
      (acc.1 || ci.hasAnyDone, acc.2.1 || isDefault,
        if isDefault then ci else acc.2.2)
termination_by structural cases
end

/-- Embeds `analyzeDoneCalls` on a block. -/
def analyzeDoneCalls (wga : Analyzer) (block : List Stmt) (wgName : String) :
    DoneCallInfo :=
  doneLoop wga wgName block ⟨false, false⟩

/-- Embeds `isTerminatingStatement`: return, break/goto branch, or a call
to the plain identifier `panic`. -/
def isTerminatingStatement : Stmt → Bool
  | .returnStmt _ => true
  | .branchStmt tok _ =>
    match tok with
    | .brk => true
    | .gotoTok => true
    | _ => false
  | .exprIdentCall f _ _ => f == "panic"
  | _ => false

/-- Embeds `containsDoneCall`: the statement's subtree holds a `Done`
selector call resolving to `wgName`. -/
def containsDoneCall (wgName : String) (s : Stmt) : Bool :=
  (allCalls [s]).any (fun c => c.meth == "Done" && getVarName c.recv == wgName)

mutual
/-- Embeds `hasUnreachableDone` on a statement list: some terminating
statement is followed by a later statement containing a `Done` call on
`wgName`, or a nested if body, else block, for body, or block reports
the same. -/
def hasUnreachableDoneList (wgName : String) (l : List Stmt) : Bool :=
  match l with
  | [] => false
  | s :: rest =>
    (isTerminatingStatement s && rest.any (fun t => containsDoneCall wgName t)) ||
    hasUnreachableDoneHead wgName s ||
    hasUnreachableDoneList wgName rest
termination_by structural l

/-- The statement switch of `hasUnreachableDone`: only if bodies, else
blocks, for bodies and plain blocks are entered. -/
def hasUnreachableDoneHead (wgName : String) (s : Stmt) : Bool :=
  match s with
  | .ifStmt _ body els _ =>
    hasUnreachableDoneList wgName body || hasUnreachableDoneElse wgName els
  | .forStmt body _ => hasUnreachableDoneList wgName body
  | .blockStmt body _ => hasUnreachableDoneList wgName body
  | _ => false
termination_by structural s

/-- The else handling in `hasUnreachableDone`: only a block else is
entered (an `else if` is not matched by the source's block type
assertion). -/
def hasUnreachableDoneElse (wgName : String) (els : ElseClause) : Bool :=
  match els with
  | .elseBlock b _ => hasUnreachableDoneList wgName b
  | _ => false
termination_by structural els
end

/-- Embeds `findRelatedAddCall`: the position of the last `Add` selector
call on `wgName` in preorder over the function body, pruning the subtree
of the goroutine statement at `goPos`; `noPos` when there is none. -/
def findRelatedAddCall (wga : Analyzer) (goPos : Pos) (wgName : String) : Pos :=
  let adds := (allCallsP
      (fun s => match s with | .goFunLit _ _ p => p == goPos | _ => false)
      wga.body).filter
    (fun c => c.meth == "Add" && getVarName c.recv == wgName)
  ((adds.map Call.pos).getLast?).getD noPos

/-!
Validation (`validation.go`).  Go iterates the `stats` map and the
`waitGroupNames` set in unspecified order; the model iterates the
tracked-name list, which is observationally equal for single-variable
programs.
-/

/-- Embeds `countGuaranteedDoneInGoroutines`: walks the goroutine
function literals; a related goroutine with a guaranteed Done counts
one; a related goroutine with no Done at all reports
`has Add without corresponding Done` at its related Add call when one
exists. -/
def countGuaranteedDoneInGoroutines (wga : Analyzer) (wgName : String)
    (errors : List ErrorReport) : Nat × List ErrorReport :=
  (allGoFunLits wga.body).foldl
    (fun acc gb =>
      if goroutineRelatedToWaitGroup gb.1 wgName then
        let di := analyzeDoneCalls wga gb.1 wgName
        if di.hasGuaranteedDone then (acc.1 + 1, acc.2)
        else if !di.hasAnyDone then
          let relatedAdd := findRelatedAddCall wga gb.2 wgName
          if relatedAdd ≠ noPos then
            (acc.1, acc.2 ++ [⟨relatedAdd, addWithoutDoneMsg wgName⟩])
          else acc
        else acc
      else acc)
    (0, errors)

/-- Embeds `reportUnmatchedAdds`: sorts the Add calls by position and
walks them consuming the expected Done budget; an Add whose value does
not fit the remaining budget is reported. -/
def reportUnmatchedAdds (wgName : String) (st : Stats)
    (totalExpectedDone : Nat) (errors : List ErrorReport) : List ErrorReport :=
  let sorted := List.insertionSort (fun a b : Pos × Nat => a.1 ≤ b.1) st.addCalls
  (sorted.foldl
    (fun acc ac =>
      if ac.2 ≤ acc.1 then (acc.1 - ac.2, acc.2)
      else (acc.1, acc.2 ++ [⟨ac.1, addWithoutDoneMsg wgName⟩]))
    (totalExpectedDone, errors)).2

/-- Embeds `reportExcessDones`: when the expected Done total exceeds the
Add total and the main-flow Done count alone exceeds it, the last
`mainFlowDoneCount - totalAdd` main-flow Done calls (in position order)
are reported. -/
def reportExcessDones (wga : Analyzer) (wgName : String) (st : Stats)
    (totalExpectedDone mainFlowDoneCount : Nat) (errors : List ErrorReport) :
    List ErrorReport :=
  if totalExpectedDone ≤ st.totalAdd then errors
  else if st.totalAdd < mainFlowDoneCount then
    let mainFlowDoneCalls := st.doneCalls.filter (fun p => !isInGoroutine wga p)
    let sorted := List.insertionSort (fun a b : Pos => a ≤ b) mainFlowDoneCalls
    let excessCount := mainFlowDoneCount - st.totalAdd
    let startIndex := sorted.length - excessCount
    (sorted.drop startIndex).foldl
      (fun acc p => acc ++ [⟨p, doneWithoutAddMsg wgName⟩]) errors
  else errors

/-- Embeds `validateBalance`: main-flow Done count, plus one for a
non-goroutine deferred Done, plus the guaranteed goroutine Dones; the Add
total is then checked against the Done total in both directions. -/
def validateBalance (wga : Analyzer) (wgName : String) (st : Stats)
    (errors : List ErrorReport) : List ErrorReport :=
  let mainFlowDoneCount :=
    (st.doneCalls.filter (fun p => !isInGoroutine wga p)).length
  let deferCount : Nat :=
    if st.hasDeferDone && !isDeferDoneInGoroutine wga wgName then 1 else 0
  let g := countGuaranteedDoneInGoroutines wga wgName errors
  let totalDone := mainFlowDoneCount + deferCount + g.1
  let errors2 :=
    if totalDone < st.totalAdd then reportUnmatchedAdds wgName st totalDone g.2
    else g.2
  if st.totalAdd < totalDone then
    reportExcessDones wga wgName st totalDone mainFlowDoneCount errors2
  else errors2

/-- Embeds `isWaitGroupArgument`: `&wgName`, `wgName`, a
`wgName.Done/Add/Wait` selector, or a call on such a selector. -/
def isWaitGroupArgument (wgName : String) (a : Arg) : Bool :=
  match a with
  | .addrOfIdent name => name == wgName
  | .identArg name => name == wgName
  | .selArg x sel =>
    x == wgName && (sel == "Done" || sel == "Add" || sel == "Wait")
  | .callSelArg x _ _ => x == wgName
  | _ => false

/-- Embeds `isWaitGroupPassedToOtherFunctions`: some call expression in
the function body has an argument that is the waitgroup. -/
def isWaitGroupPassedToOtherFunctions (wga : Analyzer) (wgName : String) : Bool :=
  ((stmtsPre wga.body).flatMap shallowCallArgs).any
    (fun args => args.any (isWaitGroupArgument wgName))

/-- Embeds `checkWaitGroupBalance`: a waitgroup passed to other functions
with Adds but no Done/defer-Done anywhere is skipped; everything else
goes through `validateBalance`. -/
def checkWaitGroupBalance (wga : Analyzer) (stats : StatsMap)
    (errors : List ErrorReport) : List ErrorReport :=
  wga.waitGroupNames.foldl
    (fun acc name =>
      let st := stats name
      if isWaitGroupPassedToOtherFunctions wga name &&
          (st.doneCount == 0 && !st.hasDeferDone && decide (0 < st.addCalls.length)) then
        acc
      else validateBalance wga name st acc)
    errors

/-- Embeds `checkAddInGoroutine`: every non-commented `Add` selector call
on `wgName` in the goroutine body is reported as `Add called after
Wait`. -/
def checkAddInGoroutine (wga : Analyzer) (body : List Stmt) (wgName : String)
    (errors : List ErrorReport) : List ErrorReport :=
  (allCalls body).foldl
    (fun acc c =>
      if wga.inComment c.pos then acc
      else if c.meth == "Add" && getVarName c.recv == wgName then
        acc ++ [⟨c.pos, addAfterWaitMsg wgName⟩]
      else acc)
    errors

/-- Embeds `checkAddAfterWaitInGoroutines`: for every recorded Wait,
every goroutine statement positioned after it has its body scanned by
`checkAddInGoroutine`. -/
def checkAddAfterWaitInGoroutines (wga : Analyzer) (wgName : String)
    (st : Stats) (errors : List ErrorReport) : List ErrorReport :=
  st.waitCalls.foldl
    (fun acc waitPos =>
      (allGoFunLits wga.body).foldl
        (fun acc2 gb =>
          if waitPos < gb.2 then checkAddInGoroutine wga gb.1 wgName acc2
          else acc2)
        acc)
    errors

/-- Embeds `checkAddAfterWaitInMainFlow`: a Wait with no main-flow Add or
Done before it flags every main-flow Add after it. -/
def checkAddAfterWaitInMainFlow (wga : Analyzer) (wgName : String)
    (st : Stats) (errors : List ErrorReport) : List ErrorReport :=
  st.waitCalls.foldl
    (fun acc wait =>
      let hasOperationsBefore :=
        st.addCalls.any (fun a => a.1 < wait && !isInGoroutine wga a.1) ||
          st.doneCalls.any (fun d => d < wait && !isInGoroutine wga d)
      if hasOperationsBefore then acc
      else
        st.addCalls.foldl
          (fun acc2 a =>
            if wait < a.1 && !isInGoroutine wga a.1 then
              acc2 ++ [⟨a.1, addAfterWaitMsg wgName⟩]
            else acc2)
          acc)
    errors

/-- Embeds `checkAddAfterWait` over the tracked names. -/
def checkAddAfterWait (wga : Analyzer) (stats : StatsMap)
    (errors : List ErrorReport) : List ErrorReport :=
  wga.waitGroupNames.foldl
    (fun acc name =>
      checkAddAfterWaitInMainFlow wga name (stats name)
        (checkAddAfterWaitInGoroutines wga name (stats name) acc))
    errors

/-- The `ExprStmt`-with-selector-call nodes of a preorder walk: what
`analyzeLoopBalance` matches inside a loop body. -/
def exprCallsIn (l : List Stmt) : List Call :=
  (stmtsPre l).filterMap (fun s =>
    match s with
    | .exprCall c => some c
    | _ => none)

/-- Embeds `isInConditional`: the call at `pos` lies in the subtree of
some if statement occurring in `scope`. -/
def isInConditional (scope : List Stmt) (pos : Pos) : Bool :=
  (stmtsPre scope).any (fun s =>
    match s with
    | .ifStmt ini body els p =>
      (allCalls [Stmt.ifStmt ini body els p]).any (fun c => c.pos == pos)
    | _ => false)

/-- Embeds `analyzeLoopBalance` for one loop body: per tracked name, the
`Add` positions and the conditional/unconditional `Done` split of the
expression-statement selector calls; a name with Adds, no unconditional
Done and at least one conditional Done gets one report per Add. -/
def analyzeLoopBalance (wga : Analyzer) (forBody : List Stmt)
    (errors : List ErrorReport) : List ErrorReport :=
  wga.waitGroupNames.foldl
    (fun acc name =>
      let calls := (exprCallsIn forBody).filter
        (fun c => getVarName c.recv == name)
      let adds := (calls.filter (fun c => c.meth == "Add")).map Call.pos
      let dones := calls.filter (fun c => c.meth == "Done")
      let unconditionalDones :=
        (dones.filter (fun c => !isInConditional forBody c.pos)).length
      let conditionalDones :=
        (dones.filter (fun c => isInConditional forBody c.pos)).length
      if decide (0 < adds.length) && unconditionalDones == 0 &&
          decide (0 < conditionalDones) then
        adds.foldl (fun a2 p => a2 ++ [⟨p, addWithoutDoneMsg name⟩]) acc
      else acc)
    errors

/-- Embeds `checkLoopAddDoneBalance`: every for statement in the body is
analyzed. -/
def checkLoopAddDoneBalance (wga : Analyzer) (errors : List ErrorReport) :
    List ErrorReport :=
  (allForStmts wga.body).foldl
    (fun acc fb => analyzeLoopBalance wga fb.1 acc) errors

/-- Embeds `checkUnreachableDone`: per tracked name, every goroutine
function literal with an unreachable Done is reported at its related Add
call when one exists. -/
def checkUnreachableDone (wga : Analyzer) (errors : List ErrorReport) :
    List ErrorReport :=
  wga.waitGroupNames.foldl
    (fun acc name =>
      (allGoFunLits wga.body).foldl
        (fun acc2 gb =>
          if hasUnreachableDoneList name gb.1 then
            let addPos := findRelatedAddCall wga gb.2 name
            if addPos ≠ noPos then
              acc2 ++ [⟨addPos, addWithoutDoneMsg name⟩]
            else acc2
          else acc2)
        acc)
    errors

/-- Embeds `validateUsage`: the four validation passes in source order. -/
def validateUsage (wga : Analyzer) (stats : StatsMap)
    (errors : List ErrorReport) : List ErrorReport :=
  checkWaitGroupBalance wga stats
    (checkUnreachableDone wga
      (checkLoopAddDoneBalance wga
        (checkAddAfterWait wga stats errors)))

/-- The per-function entry point (`AnalyzeFunction`): collect statistics,
then validate. -/
def analyzeFunction (wga : Analyzer) : List ErrorReport :=
  validateUsage wga (collectStats wga) []

end Wg

/-!
Concrete join-counter programs for the claims about the waitgroup
analyzer.
-/

/-- The body `wg.Add(2); wg.Add(1); wg.Done(); wg.Wait()` with one
statement per position. -/
def c5Body : List Stmt :=
  [ .exprCall ⟨.ident "wg", "Add", [.intLit 2], 1⟩,
    .exprCall ⟨.ident "wg", "Add", [.intLit 1], 2⟩,
    .exprCall ⟨.ident "wg", "Done", [], 3⟩,
    .exprCall ⟨.ident "wg", "Wait", [], 4⟩ ]

/-- The waitgroup analyzer tracking `wg` over `c5Body`, no comments. -/
def c5wga : Wg.Analyzer := ⟨["wg"], noComments, c5Body⟩

/-- The body `ch := make(chan struct\x7b\x7d); wg.Add(1);
go func()\x7b <-ch; wg.Done() \x7d(); wg.Wait()`, with no send on `ch`
anywhere. -/
def c6Body : List Stmt :=
  [ .otherStmt 1,
    .exprCall ⟨.ident "wg", "Add", [.intLit 1], 2⟩,
    .goFunLit [ .exprRecv "ch" 4, .exprCall ⟨.ident "wg", "Done", [], 5⟩ ] [] 3,
    .exprCall ⟨.ident "wg", "Wait", [], 6⟩ ]

/-- The waitgroup analyzer tracking `wg` over `c6Body`, no comments. -/
def c6wga : Wg.Analyzer := ⟨["wg"], noComments, c6Body⟩

/-- C5: on `Add(2); Add(1); Done(); Wait()` the analyzer emits exactly
one `has Add without corresponding Done` diagnostic, at the position of
the `Add(2)` call: unmatched-add reporting walks the adds in position
order with the effective Done budget (here 1), the `Add(2)` cannot be
covered and is flagged, and the budget then covers the `Add(1)`. -/
theorem c5_unmatched_add_position : Wg.analyzeFunction c5wga =
    [⟨1, Wg.addWithoutDoneMsg "wg"⟩] := by rfl

/-- C6: on `ch := make(...); wg.Add(1); go func()\x7b <-ch; wg.Done()
\x7d(); wg.Wait()` with no sender for `ch`, the analyzer emits NO
diagnostic, contradicting the claim (and the repository's own fixture)
that the `Add(1)` is flagged: `analyzeDoneCalls` classifies the direct
`wg.Done()` statement as a guaranteed decrement without ever inspecting
the preceding channel receive, and the blocking-goroutine analysis
(`isInBlockedGoroutine`/`goroutineCallsDoneOrBlocks`/`channelHasSender`)
is never invoked from any reachable code path. -/
theorem c6_blocking_goroutine_not_reported : Wg.analyzeFunction c6wga = [] := by
  rfl

/-- A non-identifier receiver expression for the C9 statement. -/
def c9call : Call := ⟨.nonIdent, "Lock", [], 7⟩

/-- C9: a method-call statement whose receiver is not a plain identifier
resolves to the name quoted-question-mark; when that name is tracked by
neither the mutex, rwmutex, nor waitgroup analyzer, processing the
statement leaves the mutex analyzer's stats, error and marked state and
the waitgroup analyzer's stats unchanged. -/
theorem c9_non_ident_receiver_no_match
    (ma : Mutex.Analyzer) (wga : Wg.Analyzer) (c : Call)
    (stats : Mutex.StatsMap) (st : Mutex.AState) (wstats : Wg.StatsMap)
    (hrecv : c.recv = .nonIdent)
    (hm : ma.mutexNames.contains "?" = false)
    (hr : ma.rwMutexNames.contains "?" = false)
    (hw : wga.waitGroupNames.contains "?" = false) :
    Mutex.analyzeExpressionStatement ma (.exprCall c) stats st = (stats, st) ∧
    Wg.handleExpressionStatement wga (.exprCall c) wstats = wstats := by
  have hm2 : ¬ ("?" ∈ ma.mutexNames) := by simpa using hm
  have hr2 : ¬ ("?" ∈ ma.rwMutexNames) := by simpa using hr
  have hw2 : ¬ ("?" ∈ wga.waitGroupNames) := by simpa using hw
  constructor
  · simp [Mutex.analyzeExpressionStatement, hrecv, getVarName, hm2, hr2]
  · simp [Wg.handleExpressionStatement, hrecv, getVarName, hw2,
      shouldSkipStatement]

/-- Closed instance of the C9 theorem at a concrete analyzer pair, call
and state. -/
theorem c9_non_ident_receiver_no_match_witness :
    c9call.recv = .nonIdent ∧
    (Mutex.Analyzer.mk ["mu"] [] noComments).mutexNames.contains "?" = false ∧
    (Mutex.Analyzer.mk ["mu"] [] noComments).rwMutexNames.contains "?" = false ∧
    (Wg.Analyzer.mk ["wg"] noComments []).waitGroupNames.contains "?" = false ∧
    (Mutex.analyzeExpressionStatement (Mutex.Analyzer.mk ["mu"] [] noComments)
        (.exprCall c9call) (fun _ => Mutex.Stats.empty) Mutex.AState.initial =
      ((fun _ => Mutex.Stats.empty), Mutex.AState.initial) ∧
      Wg.handleExpressionStatement (Wg.Analyzer.mk ["wg"] noComments [])
        (.exprCall c9call) (fun _ => Wg.Stats.empty) =
        (fun _ => Wg.Stats.empty)) :=
  ⟨by decide, by decide, by decide, by decide,
    c9_non_ident_receiver_no_match
      (Mutex.Analyzer.mk ["mu"] [] noComments)
      (Wg.Analyzer.mk ["wg"] noComments [])
      c9call (fun _ => Mutex.Stats.empty) Mutex.AState.initial
      (fun _ => Wg.Stats.empty) (by decide) (by decide) (by decide) (by decide)⟩

/-- A body whose Add, Done and Wait calls all sit behind a switch, a
select inside a goroutine, and a range loop respectively. -/
def c10Body : List Stmt :=
  [ .switchStmt [(true, [.exprCall ⟨.ident "wg", "Add", [.intLit 1], 2⟩])] 1,
    .goFunLit [ .selectStmt [(false, [.exprCall ⟨.ident "wg", "Done", [], 5⟩])] 4 ] [] 3,
    .rangeStmt [.exprCall ⟨.ident "wg", "Wait", [], 7⟩] 6 ]

/-- The waitgroup analyzer tracking `wg` over `c10Body`. -/
def c10wga : Wg.Analyzer := ⟨["wg"], noComments, c10Body⟩

/-- C10: the waitgroup collection traversal leaves the stats untouched at
switch, type-switch, select and range nodes — in both the context
traversal and the report-map traversal, for every analyzer, clause list,
body and incoming stats — so calls below such a node are never recorded;
in particular, on a program whose Add, Done and Wait each sit behind a
switch, a select (inside a goroutine) and a range loop, the collected
stats for the tracked variable remain the initial zero stats. -/
theorem c10_switch_select_range_not_collected :
    (∀ (wga : Wg.Analyzer) (cases : List (Bool × List Stmt))
        (body : List Stmt) (p : Pos) (stats : Wg.StatsMap),
      Wg.traverseWithContext wga (.switchStmt cases p) stats = stats ∧
      Wg.traverseWithContext wga (.typeSwitchStmt cases p) stats = stats ∧
      Wg.traverseWithContext wga (.selectStmt cases p) stats = stats ∧
      Wg.traverseWithContext wga (.rangeStmt body p) stats = stats ∧
      Wg.traverseWithReportMap wga (.switchStmt cases p) stats = stats ∧
      Wg.traverseWithReportMap wga (.typeSwitchStmt cases p) stats = stats ∧
      Wg.traverseWithReportMap wga (.selectStmt cases p) stats = stats ∧
      Wg.traverseWithReportMap wga (.rangeStmt body p) stats = stats) ∧
    Wg.collectStats c10wga "wg" = Wg.Stats.empty := by
  constructor
  · intro wga cases body p stats
    refine ⟨rfl, rfl, rfl, rfl, rfl, rfl, rfl, rfl⟩
  · rfl
